import Mathlib

/-!
Verification development for the Kotlin code-generation stage of sqlc
(src/internal/codegen/kotlin/gen.go).  The Go source is shallowly embedded:
Go strings are manipulated as `List Char`, Go maps used as accumulators are
association lists, fallible code returns `Except`, and the partial method
`QueryValue.Type` (which can panic) returns `Option`.  Functions whose
source lives outside the provided tree (the `sdk`, `inflection`,
`metadata` and per-engine type-mapping helpers, the Go standard library
string helpers, and the external template emitter) are modelled from the
specification; each such definition carries a doc comment saying so.
-/

namespace KtGen

/-! ## Data model (mirrors the plugin protocol structs used by gen.go) -/

/-- plugin.Identifier: a qualified catalog object name. -/
structure Identifier where
  catalog : String
  schema : String
  name : String
deriving DecidableEq

/-- plugin.Column: the fields of a column that gen.go reads. -/
structure Column where
  name : String
  notNull : Bool
  isArray : Bool
  typ : Identifier
  table : Option Identifier
  comment : String
deriving DecidableEq

/-- plugin.Parameter: a positional parameter of a query. -/
structure Param where
  number : Nat
  column : Column
deriving DecidableEq

/-- plugin.Query: an annotated input query. -/
structure PQuery where
  name : String
  cmd : String
  text : String
  comments : List String
  filename : String
  params : List Param
  columns : List Column
deriving DecidableEq

/-- plugin.Table: a catalog table. -/
structure CatTable where
  rel : Identifier
  columns : List Column
  comment : String
deriving DecidableEq

/-- plugin.Enum: a catalog enum type. -/
structure CatEnum where
  name : String
  vals : List String
  comment : String
deriving DecidableEq

/-- plugin.Schema: one schema of the catalog. -/
structure PSchema where
  name : String
  tables : List CatTable
  enums : List CatEnum
deriving DecidableEq

/-- plugin.Catalog. -/
structure Catalog where
  defaultSchema : String
  schemas : List PSchema
deriving DecidableEq

/-- plugin.KotlinCode settings used by gen.go. -/
structure KotlinSettings where
  pkg : String
  emitExactTableNames : Bool
  inflectionExcludeTableNames : List String
deriving DecidableEq

/-- plugin.Settings: the fields gen.go reads.  The Go `Rename` map is an
association list; a missing key behaves as the empty string. -/
structure GenSettings where
  engine : String
  rename : List (String × String)
  kotlin : KotlinSettings
deriving DecidableEq

/-- plugin.CodeGenRequest. -/
structure CodeGenRequest where
  settings : GenSettings
  catalog : Catalog
  queries : List PQuery
  sqlcVersion : String
deriving DecidableEq

/-! ## Generic helpers (association lists, character-level string helpers) -/

/-- Association-list lookup, first binding wins (models a Go map whose keys
are never overwritten, or are overwritten by consing a fresh binding). -/
def alookup {α β : Type} [DecidableEq α] : List (α × β) → α → Option β
| [], _ => none
| (k, v) :: rest, key => if key = k then some v else alookup rest key

/-- Split a character list at every occurrence of `sep`
(the semantics of Go strings.Split with a one-character separator). -/
def splitOnChar (sep : Char) : List Char → List (List Char)
| [] => [[]]
| c :: cs =>
  let r := splitOnChar sep cs
  if c = sep then [] :: r
  else match r with
  | p :: ps => (c :: p) :: ps
  | [] => [[c]]

/-- Join character lists with a separator character. -/
def joinChar (sep : Char) : List (List Char) → List Char
| [] => []
| [l] => l
| l :: ls => l ++ sep :: joinChar sep ls

/-- Decimal digit to character. -/
def digitChar : Nat → Char
| 0 => '0' | 1 => '1' | 2 => '2' | 3 => '3' | 4 => '4'
| 5 => '5' | 6 => '6' | 7 => '7' | 8 => '8' | 9 => '9'
| _ => '*'

/-- Fuelled decimal printer (the fuel makes it structurally recursive so
that the kernel can evaluate it; `n + 1` units always suffice). -/
def natDigitsAux : Nat → Nat → List Char
| 0, _ => []
| fuel+1, n => if n < 10 then [digitChar n] else natDigitsAux fuel (n / 10) ++ [digitChar (n % 10)]

/-- Go fmt.Sprintf with a %d verb: decimal rendering of a natural number. -/
def natToStr (n : Nat) : String := ⟨natDigitsAux (n+1) n⟩

/-- Word characters of the RE2 character class `[0-9A-Za-z_]`
(ASCII `\w`, used by the `\b` and `\B` assertions of gen.go's regexes). -/
def isWordChar (c : Char) : Bool := c.isAlphanum || c = '_'

/-- Go strings.Title's separator test restricted to the ASCII inputs this
generator handles: alphanumerics and underscore are the non-separators. -/
def isSeparatorGo (c : Char) : Bool := !(c.isAlphanum || c = '_')

/-- Go strings.Title (ASCII behaviour): a character is upper-cased exactly
when the previous character of the original string is a separator. -/
def stringsTitleAux : List Char → Char → List Char
| [], _ => []
| c :: cs, prev => (if isSeparatorGo prev then c.toUpper else c) :: stringsTitleAux cs c

/-- Go strings.Title (ASCII behaviour); the virtual previous character of
the first position is a space. -/
def stringsTitle (s : String) : String := ⟨stringsTitleAux s.data ' '⟩

/-- Go strings.ToLower (ASCII behaviour). -/
def strToLower (s : String) : String := ⟨s.data.map Char.toLower⟩

/-- Go strings.ToUpper (ASCII behaviour; gen.go only upper-cases strings
already filtered down to `[A-Za-z0-9_]`). -/
def strToUpper (s : String) : String := ⟨s.data.map Char.toUpper⟩

/-- Modelled from the spec: `sdk.LowerTitle` is repository code outside
src/; per its use for accessor/member names ("supporting naming
utilities", spec 2), it lowers the first character of a name. -/
def sdkLowerTitle (s : String) : String :=
  match s.data with
  | [] => ""
  | c :: cs => ⟨c.toLower :: cs⟩

/-- Modelled from the spec: `sdk.DataType` is repository code outside src/;
per spec 3 a raw engine type is the schema-qualified type name, the
schema qualifier being omitted when empty. -/
def sdkDataType (t : Identifier) : String :=
  if t.schema = "" then t.name else t.schema ++ "." ++ t.name

/-- Modelled from the spec (4.4.1): `sdk.SameTableName` is repository code
outside src/.  It compares a column's owning table against a struct's
table, normalizing an empty schema to the configured default schema so
unqualified and default-schema-qualified identifiers are equivalent. -/
def sdkSameTableName (tableID : Option Identifier) (f : Identifier) (defaultSchema : String) : Bool :=
  match tableID with
  | none => false
  | some t =>
    let schema := if t.schema = "" then defaultSchema else t.schema
    t.catalog == f.catalog && schema == f.schema && t.name == f.name

/-- Modelled from the spec (4.2): `inflection.Singular` is repository code
outside src/; it is an optional singularization transform with an
exclusion list: excluded names pass through, otherwise a plural name
ending in a single "s" drops it. -/
def inflectionSingular (name : String) (exclusions : List String) : String :=
  if exclusions.contains name then name
  else match name.data.reverse with
  | 's' :: 's' :: _ => name
  | 's' :: rest => ⟨rest.reverse⟩
  | _ => name

/-- Modelled from the spec: `metadata.CmdCopyFrom` is repository code
outside src/; it is the bulk-copy command-kind constant. -/
def cmdCopyFrom : String := ":copyfrom"

/-! ## Output descriptor types of gen.go -/

/-- gen.go ktType: the resolved scalar type descriptor. -/
structure ktType where
  name : String
  isEnum : Bool
  isArray : Bool
  isNull : Bool
  dataType : String
  engine : String
deriving DecidableEq

/-- The Go zero value of ktType (written `ktType\x7b\x7d` in the source). -/
def zeroKtType : ktType := ⟨"", false, false, false, "", ""⟩

/-- gen.go (ktType).String. -/
def ktType.render (t : ktType) : String :=
  if t.isArray then "List<" ++ t.name ++ ">"
  else if t.isNull then t.name ++ "?"
  else t.name

/-- gen.go Field. -/
structure Field where
  name : String
  typ : ktType
  comment : String
deriving DecidableEq

/-- gen.go Struct. -/
structure Struct where
  table : Identifier
  name : String
  fields : List Field
  jdbcParamBindings : List Field
  comment : String
deriving DecidableEq

/-- gen.go Constant: one enum constant. -/
structure Constant where
  name : String
  typ : String
  value : String
deriving DecidableEq

/-- gen.go Enum. -/
structure Enum where
  name : String
  comment : String
  constants : List Constant
deriving DecidableEq

/-- gen.go QueryValue: argument or return descriptor of a query. -/
structure QueryValue where
  emit : Bool
  name : String
  struct : Option Struct
  typ : ktType
  jdbcParamBindCount : Nat
deriving DecidableEq

/-- The Go zero value of QueryValue. -/
def emptyQueryValue : QueryValue := ⟨false, "", none, zeroKtType, 0⟩

/-- gen.go (QueryValue).isEmpty. -/
def QueryValue.isEmpty (v : QueryValue) : Bool :=
  v.typ == zeroKtType && v.name == "" && v.struct == none

/-- gen.go (QueryValue).Type.  The source panics when neither a scalar type
nor a struct is set; the panic is modelled as `none`. -/
def QueryValue.typeName (v : QueryValue) : Option String :=
  if v.typ ≠ zeroKtType then some v.typ.render
  else match v.struct with
  | some s => some s.name
  | none => none

/-- gen.go Params: the argument descriptor wrapping the argument struct. -/
structure Params where
  struct : Struct
deriving DecidableEq

/-- gen.go Query: one compiled query descriptor. -/
structure Query where
  className : String
  cmd : String
  comments : List String
  methodName : String
  fieldName : String
  constantName : String
  sql : String
  sourceName : String
  ret : QueryValue
  arg : Params
deriving DecidableEq

/-! ## Name derivation (gen.go lines 209-263, 410-434) -/

/-- gen.go ktEnumValueName: substitute the separators `-`, `:`, `/` with
underscores, delete every character matched by `[^a-zA-Z0-9_]+`, then
upper-case.  Single-character strings.Replace is a character map. -/
def ktEnumValueName (value : String) : String :=
  let id := value.data.map (fun c => if c = '-' then '_' else c)
  let id := id.map (fun c => if c = ':' then '_' else c)
  let id := id.map (fun c => if c = '/' then '_' else c)
  let id := id.filter (fun c => c.isAlphanum || c = '_')
  strToUpper ⟨id⟩

/-- C7's reference rendering of the claim: replace each of `-`, `:`, `/`
with `_`, delete every remaining character outside `[A-Za-z0-9_]`, and
upper-case the result. -/
def enumValueNameSpec (value : String) : String :=
  ⟨((value.data.map fun c => if c = '-' || c = ':' || c = '/' then '_' else c).filter
      fun c => c.isAlphanum || c = '_').map Char.toUpper⟩

/-- gen.go dataClassName: a nonempty entry of the rename map wins;
otherwise the name is split on underscores and each part title-cased. -/
def dataClassName (name : String) (settings : GenSettings) : String :=
  let ren := (alookup settings.rename name).getD ""
  if ren ≠ "" then ren
  else ⟨(splitOnChar '_' name.data).foldl (fun out p => out ++ (stringsTitle ⟨p⟩).data) []⟩

/-- gen.go memberName. -/
def memberName (name : String) (settings : GenSettings) : String :=
  sdkLowerTitle (dataClassName name settings)

/-- gen.go ktArgName: the first underscore-separated part is lower-cased,
the later parts are title-cased. -/
def ktArgName (name : String) : String :=
  ⟨((splitOnChar '_' name.data).enum.foldl
      (fun out ip =>
        if ip.1 = 0 then out ++ (strToLower ⟨ip.2⟩).data
        else out ++ (stringsTitle ⟨ip.2⟩).data) [])⟩

/-- gen.go ktParamName: a named column names the parameter; an anonymous
one is named after its positional number. -/
def ktParamName (c : Column) (number : Nat) : String :=
  if c.name ≠ "" then ktArgName c.name
  else "dollar_" ++ natToStr number

/-- gen.go ktColumnName: a named column names the result field; an
anonymous one is named after its (1-based) position. -/
def ktColumnName (c : Column) (pos : Nat) : String :=
  if c.name ≠ "" then c.name
  else "column_" ++ natToStr (pos+1)

/-! ## Type resolution (gen.go lines 306-376) -/

/-- Modelled from the spec (4.1, 4.3): the postgresql scalar mapping table
of `postgresType` (repository code outside src/).  Known raw types map to
Kotlin scalar names. -/
def pgTypeLookup (dataType : String) : Option String :=
  alookup [
    ( "uuid", "UUID"), ( "text", "String"), ( "pg_catalog.varchar", "String"),
    ( "pg_catalog.bpchar", "String"), ( "citext", "String"),
    ( "serial", "Int"), ( "pg_catalog.serial4", "Int"),
    ( "integer", "Int"), ( "int", "Int"), ( "int4", "Int"), ( "pg_catalog.int4", "Int"),
    ( "bigserial", "Long"), ( "pg_catalog.serial8", "Long"),
    ( "bigint", "Long"), ( "int8", "Long"), ( "pg_catalog.int8", "Long"),
    ( "smallint", "Short"), ( "int2", "Short"), ( "pg_catalog.int2", "Short"),
    ( "float", "Double"), ( "double precision", "Double"), ( "pg_catalog.float8", "Double"),
    ( "real", "Float"), ( "pg_catalog.float4", "Float"),
    ( "pg_catalog.numeric", "java.math.BigDecimal"),
    ( "boolean", "Boolean"), ( "bool", "Boolean"), ( "pg_catalog.bool", "Boolean"),
    ( "jsonb", "String"), ( "bytea", "String"),
    ( "date", "LocalDate"),
    ( "pg_catalog.time", "LocalTime"), ( "pg_catalog.timetz", "LocalTime"),
    ( "pg_catalog.timestamp", "LocalDateTime"),
    ( "pg_catalog.timestamptz", "OffsetDateTime"), ( "timestamptz", "OffsetDateTime"),
    ( "interval", "Duration"), ( "pg_catalog.interval", "Duration")
  ] dataType

/-- Modelled from the spec (4.1, 4.3): the enum fallback of
`postgresType`: a raw type equal to a declared catalog enum resolves to
that enum's class name (schema-qualified outside the default schema). -/
def findEnumName (req : CodeGenRequest) (typ : Identifier) : Option String :=
  req.catalog.schemas.foldr
    (fun schema acc =>
      match schema.enums.find? (fun e => typ.name == e.name && typ.schema == schema.name) with
      | some e =>
        if schema.name = req.catalog.defaultSchema then some e.name
        else some (schema.name ++ "_" ++ e.name)
      | none => acc)
    none

/-- Modelled from the spec (4.1): `postgresType` (repository code outside
src/): a table lookup, then the catalog-enum fallback, then the generic
fallback scalar name "Any".  It depends only on the raw type. -/
def postgresTypeOf (req : CodeGenRequest) (typ : Identifier) : String × Bool :=
  match pgTypeLookup (sdkDataType typ) with
  | some n => (n, false)
  | none =>
    match findEnumName req typ with
    | some n => (dataClassName n req.settings, true)
    | none => ("Any", false)

/-- Modelled from the spec (4.1, 4.3): the mysql scalar mapping table of
`mysqlType` (repository code outside src/). -/
def mysqlTypeLookup (dataType : String) : Option String :=
  alookup [
    ( "varchar", "String"), ( "text", "String"), ( "char", "String"),
    ( "tinytext", "String"), ( "mediumtext", "String"), ( "longtext", "String"),
    ( "int", "Long"), ( "integer", "Long"), ( "bigint", "Long"),
    ( "smallint", "Long"), ( "mediumint", "Long"),
    ( "tinyint", "Boolean"), ( "bool", "Boolean"), ( "boolean", "Boolean"),
    ( "double", "Double"), ( "float", "Double"),
    ( "decimal", "java.math.BigDecimal"),
    ( "date", "LocalDate"), ( "time", "LocalTime"),
    ( "datetime", "LocalDateTime"), ( "timestamp", "Instant"),
    ( "blob", "String"), ( "json", "String")
  ] dataType

/-- Modelled from the spec (4.1): `mysqlType` (repository code outside
src/): a mapping table with the generic fallback "Any".  It depends only
on the raw type. -/
def mysqlTypeOf (req : CodeGenRequest) (typ : Identifier) : String × Bool :=
  match mysqlTypeLookup (sdkDataType typ) with
  | some n => (n, false)
  | none =>
    match findEnumName req typ with
    | some n => (dataClassName n req.settings, true)
    | none => ("Any", false)

/-- gen.go ktInnerType: per-engine dispatch, with the generic fallback
("Any", not an enum) for every other engine. -/
def ktInnerType (req : CodeGenRequest) (col : Column) : String × Bool :=
  if req.settings.engine = "mysql" then mysqlTypeOf req col.typ
  else if req.settings.engine = "postgresql" then postgresTypeOf req col.typ
  else ("Any", false)

/-- gen.go makeType. -/
def makeType (req : CodeGenRequest) (col : Column) : ktType :=
  let ti := ktInnerType req col
  { name := ti.1
    isEnum := ti.2
    isArray := col.isArray
    isNull := !col.notNull
    dataType := sdkDataType col.typ
    engine := req.settings.engine }

/-! ## Deterministic sorting (gen.go sort.Slice calls) -/

/-- Lexicographic character-list order (the Go string `<` on the ASCII
strings this generator produces). -/
def charListLt : List Char → List Char → Bool
| [], [] => false
| [], _ :: _ => true
| _ :: _, [] => false
| a :: as, b :: bs =>
  if a.toNat < b.toNat then true
  else if b.toNat < a.toNat then false
  else charListLt as bs

/-- Insert into a list sorted ascending by `key`. -/
def insertByKey {α : Type} (key : α → String) (a : α) : List α → List α
| [] => [a]
| b :: bs =>
  if charListLt (key b).data (key a).data then b :: insertByKey key a bs
  else a :: b :: bs

/-- gen.go sort.Slice with an `<`-by-key comparator (insertion sort; the
source algorithm differs but any deterministic ascending sort models it). -/
def sortByKey {α : Type} (key : α → String) (l : List α) : List α :=
  l.foldr (insertByKey key) []

/-! ## Enum and data-class builders (gen.go lines 217-304) -/

/-- The per-schema body of the gen.go buildEnums loop; a system schema
(skipped by `continue` in the source) contributes nothing. -/
def buildEnumsOfSchema (req : CodeGenRequest) (schema : PSchema) : List Enum :=
  if schema.name = "pg_catalog" || schema.name = "information_schema" then []
  else schema.enums.map (fun enum =>
    let enumName :=
      if schema.name = req.catalog.defaultSchema then enum.name
      else schema.name ++ "_" ++ enum.name
    let eName := dataClassName enumName req.settings
    { name := eName
      comment := enum.comment
      constants := enum.vals.map (fun v => ⟨ktEnumValueName v, eName, v⟩) })

/-- gen.go buildEnums. -/
def buildEnums (req : CodeGenRequest) : List Enum :=
  sortByKey Enum.name
    (req.catalog.schemas.foldl (fun acc schema => acc ++ buildEnumsOfSchema req schema) [])

/-- gen.go buildDataClasses. -/
def buildDataClasses (req : CodeGenRequest) : List Struct :=
  let structs := req.catalog.schemas.foldl
    (fun acc schema =>
      if schema.name = "pg_catalog" || schema.name = "information_schema" then acc
      else acc ++ schema.tables.map (fun table =>
        let tableName :=
          if schema.name = req.catalog.defaultSchema then table.rel.name
          else schema.name ++ "_" ++ table.rel.name
        let structName0 := dataClassName tableName req.settings
        let structName :=
          if !req.settings.kotlin.emitExactTableNames then
            inflectionSingular structName0 req.settings.kotlin.inflectionExcludeTableNames
          else structName0
        { table := ⟨"", schema.name, table.rel.name⟩
          name := structName
          fields := table.columns.map (fun column =>
            ⟨memberName column.name req.settings, makeType req column, column.comment⟩)
          jdbcParamBindings := []
          comment := table.comment }))
    []
  sortByKey Struct.name structs

/-! ## Argument/row struct construction (gen.go lines 378-408) -/

/-- gen.go goColumn: a column tagged with a numeric key (parameter number
or result position). -/
structure GoColumn where
  id : Nat
  column : Column
deriving DecidableEq

/-- Go `nameSeen[c.Name]++`: consing the incremented binding shadows the
old one under head-first lookup. -/
def bumpNameSeen (ns : List (String × Nat)) (k : String) : List (String × Nat) :=
  (k, (alookup ns k).getD 0 + 1) :: ns

/-- The nameSeen counter of a raw column name (0 when unseen). -/
def nsCount (ns : List (String × Nat)) (k : String) : Nat :=
  (alookup ns k).getD 0

/-- The field-name assignment of gen.go ktColumnsToStruct lines 394-397:
the derived base name, suffixed with `_(v+1)` when the raw column name was
already seen `v > 0` times. -/
def assignName (base : String) (v : Nat) : String :=
  if v > 0 then base ++ "_" ++ natToStr (v+1) else base

/-- The Field created for a first-occurrence column. -/
def mkCTSField (req : CodeGenRequest) (namer : Column → Nat → String)
    (nameSeen : List (String × Nat)) (c : GoColumn) : Field :=
  ⟨assignName (memberName (namer c.column c.id) req.settings) (nsCount nameSeen c.column.name),
    makeType req c.column, ""⟩

/-- The loop of gen.go ktColumnsToStruct: yields the Field list and the
JDBCParamBindings list.  A column whose id was already seen appends only a
binding referencing the Field created at the first occurrence; a fresh id
creates a Field (suffixing its name when the raw column name repeats) and
appends it to both lists. -/
def ktCTSAux (req : CodeGenRequest) (namer : Column → Nat → String) :
    List GoColumn → List (Nat × Field) → List (String × Nat) → List Field × List Field
| [], _, _ => ([], [])
| c :: rest, idSeen, nameSeen =>
  match alookup idSeen c.id with
  | some f =>
    let r := ktCTSAux req namer rest idSeen nameSeen
    (r.1, f :: r.2)
  | none =>
    let f := mkCTSField req namer nameSeen c
    let r := ktCTSAux req namer rest ((c.id, f) :: idSeen) (bumpNameSeen nameSeen c.column.name)
    (f :: r.1, f :: r.2)

/-- The final idSeen map after the gen.go ktColumnsToStruct loop (a ghost
of the loop used to reason about which Field a binding references). -/
def finalIdSeen (req : CodeGenRequest) (namer : Column → Nat → String) :
    List GoColumn → List (Nat × Field) → List (String × Nat) → List (Nat × Field)
| [], idSeen, _ => idSeen
| c :: rest, idSeen, nameSeen =>
  match alookup idSeen c.id with
  | some _ => finalIdSeen req namer rest idSeen nameSeen
  | none =>
    let f := mkCTSField req namer nameSeen c
    finalIdSeen req namer rest ((c.id, f) :: idSeen) (bumpNameSeen nameSeen c.column.name)

/-- gen.go ktColumnsToStruct. -/
def ktColumnsToStruct (req : CodeGenRequest) (name : String) (columns : List GoColumn)
    (namer : Column → Nat → String) : Struct :=
  let r := ktCTSAux req namer columns [] []
  { table := ⟨"", "", ""⟩, name := name, fields := r.1, jdbcParamBindings := r.2, comment := "" }

/-! ## Placeholder rewriting (gen.go lines 436-446) -/

/-- The scanner of the RE2 replacement
`postgresPlaceholderRegexp.ReplaceAllString(s, "?")` for the pattern
matching a dollar sign at a non-word-boundary followed by digits ending at
a word boundary.  `prev` is the previous character of the original string
(none at the start); fuel keeps the recursion structural. -/
def replacePHAux : Nat → List Char → Option Char → List Char
| 0, s, _ => s
| _+1, [], _ => []
| fuel+1, c :: rest, prev =>
  if c = '$' && (match prev with | none => true | some p => !isWordChar p) then
    if (rest.takeWhile Char.isDigit).isEmpty then c :: replacePHAux fuel rest (some c)
    else
      match rest.drop (rest.takeWhile Char.isDigit).length with
      | [] => ['?']
      | d :: _ =>
        if isWordChar d then c :: replacePHAux fuel rest (some c)
        else '?' :: replacePHAux fuel (rest.drop (rest.takeWhile Char.isDigit).length)
          (some ((rest.takeWhile Char.isDigit).getLastD '0'))
  else c :: replacePHAux fuel rest (some c)

/-- gen.go jdbcSQL: for postgresql, replace every numbered-placeholder
token by `?` (a pure text substitution); other engines are unchanged. -/
def jdbcSQL (s engine : String) : String :=
  if engine = "postgresql" then ⟨replacePHAux (s.data.length + 1) s.data none⟩
  else s

/-- C8's reference reading of the claim's token shape: the position just
after `prev` starts a numbered-placeholder token when it holds a dollar
sign at a token boundary (the previous character, if any, is not a word
character) followed by one or more digits ending at a word boundary (the
character after the digits, if any, is not a word character). -/
def phTokenAt (prev : Option Char) (l : List Char) : Prop :=
  (∀ p, prev = some p → isWordChar p = false) ∧
  ∃ digs rest, l = '$' :: digs ++ rest ∧ digs ≠ [] ∧
    (∀ c ∈ digs, c.isDigit = true) ∧
    (∀ d rest2, rest = d :: rest2 → isWordChar d = false)

/-- C8's reference rendering of the claim as a rewriting relation over the
scanned string: a position that does not start a numbered-placeholder
token keeps its character, and every position that does start one has the
whole token replaced by a single unnumbered `?` token, scanning resuming
after the token with the last digit as the previous character. -/
inductive PHRewrites : Option Char → List Char → List Char → Prop
| nil (prev : Option Char) : PHRewrites prev [] []
| keep (prev : Option Char) (c : Char) (s t : List Char) :
    ¬ phTokenAt prev (c :: s) →
    PHRewrites (some c) s t →
    PHRewrites prev (c :: s) (c :: t)
| replace (prev : Option Char) (digs rest t : List Char) (dlast : Char) :
    (∀ p, prev = some p → isWordChar p = false) →
    digs ≠ [] →
    (∀ c ∈ digs, c.isDigit = true) →
    (∀ d rest2, rest = d :: rest2 → isWordChar d = false) →
    digs.getLast? = some dlast →
    PHRewrites (some dlast) rest t →
    PHRewrites prev ('$' :: digs ++ rest) ('?' :: t)

/-! ## Query compilation (gen.go lines 448-537) -/

/-- The inner loop of gen.go buildQueries that compares a query's result
columns against an existing struct: equal field counts and, at each
position, equal derived field name, structurally equal type, and the same
owning table up to default-schema normalization. -/
def structMatches (req : CodeGenRequest) (s : Struct) (columns : List Column) : Bool :=
  s.fields.length == columns.length &&
  (s.fields.enum.zip columns).all (fun fc =>
    let i := fc.1.1
    let f := fc.1.2
    let c := fc.2
    f.name == memberName (ktColumnName c i) req.settings &&
    f.typ == makeType req c &&
    sdkSameTableName c.table s.table req.catalog.defaultSchema)

/-- The gen.go buildQueries return-value construction (lines 484-531):
no result columns leave the zero QueryValue, one column yields a bare
scalar, two or more reuse the first matching known struct (not emitted)
or synthesize a `<ClassName>Row` struct (emitted). -/
def retValue (req : CodeGenRequest) (structs : List Struct) (className : String)
    (columns : List Column) : QueryValue :=
  match columns with
  | [] => emptyQueryValue
  | [c] => { emptyQueryValue with name := "results", typ := makeType req c }
  | _ :: _ :: _ =>
    match structs.find? (fun s => structMatches req s columns) with
    | some s => { emptyQueryValue with name := "results", struct := some s }
    | none =>
      { emptyQueryValue with
          emit := true
          name := "results"
          struct := some (ktColumnsToStruct req (className ++ "Row")
            (columns.enum.map (fun ic => ⟨ic.1, ic.2⟩)) ktColumnName) }

/-- The body of the gen.go buildQueries loop for a retained query. -/
def mkCompiledQuery (req : CodeGenRequest) (structs : List Struct) (q : PQuery) : Query :=
  let className := stringsTitle q.name
  let cols := q.params.map (fun p => (⟨p.number, p.column⟩ : GoColumn))
  let argStruct := ktColumnsToStruct req (className ++ "Bindings") cols ktParamName
  { className := className
    cmd := q.cmd
    comments := q.comments
    methodName := sdkLowerTitle q.name
    fieldName := sdkLowerTitle q.name ++ "Stmt"
    constantName := sdkLowerTitle q.name
    sql := jdbcSQL q.text req.settings.engine
    sourceName := q.filename
    ret := retValue req structs className q.columns
    arg := ⟨argStruct⟩ }

/-- One iteration of the gen.go buildQueries loop: `.ok none` models
`continue` (missing name or command), `.error` models the CopyFrom abort,
and `.ok (some gq)` is the compiled query. -/
def buildQueryStep (req : CodeGenRequest) (structs : List Struct) (q : PQuery) :
    Except String (Option Query) :=
  if q.name = "" then .ok none
  else if q.cmd = "" then .ok none
  else if q.cmd = cmdCopyFrom then .error "Support for CopyFrom in Kotlin is not implemented"
  else .ok (some (mkCompiledQuery req structs q))

/-- The gen.go buildQueries loop over the input query list. -/
def buildQueriesAux (req : CodeGenRequest) (structs : List Struct) :
    List PQuery → Except String (List Query)
| [] => .ok []
| q :: rest =>
  match buildQueryStep req structs q with
  | .error e => .error e
  | .ok none => buildQueriesAux req structs rest
  | .ok (some gq) =>
    match buildQueriesAux req structs rest with
    | .error e => .error e
    | .ok qs => .ok (gq :: qs)

/-- gen.go buildQueries: compile every query, then sort by MethodName. -/
def buildQueries (req : CodeGenRequest) (structs : List Struct) : Except String (List Query) :=
  match buildQueriesAux req structs req.queries with
  | .error e => .error e
  | .ok qs => .ok (sortByKey Query.methodName qs)

/-! ## Generate (gen.go lines 729-839) -/

/-- plugin.File. -/
structure File where
  name : String
  contents : String
deriving DecidableEq

/-- plugin.CodeGenResponse. -/
structure CodeGenResponse where
  files : List File
deriving DecidableEq

/-- gen.go ktTmplCtx (the fields the claims depend on). -/
structure KtTmplCtx where
  q : String
  pkg : String
  enums : List Enum
  dataClasses : List Struct
  queries : List Query
  sqlcVersion : String
  sourceName : String
deriving DecidableEq

/-- Comma-join of names, used by the modelled emitter below. -/
def joinComma (l : List String) : String := ⟨joinChar ',' (l.map String.data)⟩

/-- Modelled from the spec: the Emitter (Go text/template rendering) is an
external collaborator (spec 2, 6) outside this stage; it is modelled as a
fixed deterministic serialization of the template context. -/
def renderTemplate (tmpl : String) (ctx : KtTmplCtx) : String :=
  tmpl ++ "|" ++ ctx.sqlcVersion ++ "|" ++ ctx.pkg ++ "|" ++ ctx.sourceName ++ "|" ++
  joinComma (ctx.enums.map Enum.name) ++ "|" ++
  joinComma (ctx.dataClasses.map Struct.name) ++ "|" ++
  joinComma (ctx.queries.map Query.methodName)

/-- The line filter of gen.go ktFormat: drop a blank line that directly
follows another blank line. -/
def ktFormatAux : List (List Char) → Bool → List (List Char)
| [], _ => []
| l :: ls, skip =>
  let isSpace := l.all Char.isWhitespace
  let keep := !isSpace || !skip
  (if keep then [l] else []) ++ ktFormatAux ls isSpace

/-- gen.go ktFormat. -/
def ktFormat (s : String) : String :=
  ⟨joinChar '\n' (ktFormatAux (splitOnChar '\n' s.data) false)⟩ ++ "\n"

/-- Go strings.HasSuffix(name, ".kt"). -/
def hasKtSuffix (s : String) : Bool :=
  match s.data.reverse with
  | 't' :: 'k' :: '.' :: _ => true
  | _ => false

/-- The filename fixup of gen.go's `execute` closure. -/
def outputName (n : String) : String := if hasKtSuffix n then n else n ++ ".kt"

/-- gen.go's `execute` closure: set SourceName, render, format and store. -/
def executeFile (ctx : KtTmplCtx) (name : String) : String × String :=
  (outputName name, ktFormat (renderTemplate name { ctx with sourceName := name }))

/-- gen.go Generate up to the output map: the three rendered files in the
order they are inserted into the `output` map; a buildQueries error aborts
with no output. -/
def generateOutput (req : CodeGenRequest) : Except String (List (String × String)) :=
  match buildQueries req (buildDataClasses req) with
  | .error e => .error e
  | .ok queries =>
    let ctx : KtTmplCtx :=
      ⟨"\"\"\"", req.settings.kotlin.pkg, buildEnums req, buildDataClasses req,
        queries, req.sqlcVersion, ""⟩
    .ok [executeFile ctx "Models.kt", executeFile ctx "Queries.kt", executeFile ctx "QueriesImpl.kt"]

/-- The final loop of gen.go Generate ranges over the Go map `output`,
whose iteration order the Go specification leaves unspecified (and the
runtime randomizes); the order is therefore an explicit argument: every
permutation of the keys is a possible run. -/
def mapIterate (m : List (String × String)) (order : List String) : List (String × String) :=
  order.foldr
    (fun k acc =>
      match alookup m k with
      | some v => (k, v) :: acc
      | none => acc)
    []

/-- gen.go Generate: build the descriptors, render the three files, and
append them to the response in map-iteration order `iterOrder`. -/
def Generate (req : CodeGenRequest) (iterOrder : List String) : Except String CodeGenResponse :=
  match generateOutput req with
  | .error e => .error e
  | .ok out => .ok ⟨(mapIterate out iterOrder).map (fun kv => ⟨kv.1, kv.2⟩)⟩

/-! ## Concrete inputs used by witnesses and counterexamples -/

/-- A postgresql settings value with no renames and exact table names. -/
def pgSettings : GenSettings := ⟨ "postgresql", [], ⟨ "pkg", true, []⟩⟩

/-- A request with an empty catalog and no queries. -/
def emptyReq : CodeGenRequest := ⟨pgSettings, ⟨ "public", []⟩, [], "v1"⟩

/-- A parameter column named "a". -/
def colParamA : Column := ⟨ "a", true, false, ⟨ "", "", "text"⟩, none, ""⟩

/-- A parameter column named "b". -/
def colParamB : Column := ⟨ "b", true, false, ⟨ "", "", "text"⟩, none, ""⟩

/-- Parameter number 1 used three times and number 2 once. -/
def colsC1 : List GoColumn := [⟨1, colParamA⟩, ⟨2, colParamB⟩, ⟨1, colParamA⟩, ⟨1, colParamA⟩]

/-- Two distinct parameter numbers whose columns share the raw name "a". -/
def colsC5 : List GoColumn := [⟨1, colParamA⟩, ⟨2, colParamA⟩]

/-- A table whose two raw column names derive the same member identifier. -/
def tblC5 : CatTable := ⟨⟨ "", "public", "t"⟩,
  [⟨ "foo_bar", true, false, ⟨ "", "", "text"⟩, none, ""⟩,
   ⟨ "foo__bar", true, false, ⟨ "", "", "text"⟩, none, ""⟩], ""⟩

/-- A request whose catalog holds only `tblC5`. -/
def reqC5 : CodeGenRequest := ⟨pgSettings, ⟨ "public", [⟨ "public", [tblC5], []⟩]⟩, [], "v1"⟩

/-- The `id uuid not null` column of the users table. -/
def colId : Column := ⟨ "id", true, false, ⟨ "", "", "uuid"⟩, some ⟨ "", "public", "users"⟩, ""⟩

/-- The `email text` column of the users table. -/
def colEmail : Column := ⟨ "email", false, false, ⟨ "", "", "text"⟩, some ⟨ "", "public", "users"⟩, ""⟩

/-- The users table. -/
def tblUsers : CatTable := ⟨⟨ "", "public", "users"⟩, [colId, colEmail], ""⟩

/-- A request whose catalog holds only the users table. -/
def reqUsers : CodeGenRequest := ⟨pgSettings, ⟨ "public", [⟨ "public", [tblUsers], []⟩]⟩, [], "v1"⟩

/-- A query whose result shape matches the users struct exactly. -/
def qGetUsers : PQuery := ⟨ "GetUsers", ":many", "SELECT id, email FROM users", [], "q.sql", [], [colId, colEmail]⟩

/-- A query with exactly one result column. -/
def qOneCol : PQuery := ⟨ "GetEmail", ":one", "SELECT email FROM users", [], "q.sql", [], [colEmail]⟩

/-- A query with no result columns. -/
def qNoCol : PQuery := ⟨ "DelUsers", ":exec", "DELETE FROM users", [], "q.sql", [], []⟩

/-- A two-column query whose shape matches no known struct. -/
def qTwoColNew : PQuery := ⟨ "GetPair", ":many", "SELECT id, id FROM users", [], "q.sql", [], [colId, colId]⟩

/-- A named CopyFrom query. -/
def qCopyNamed : PQuery := ⟨ "CopyUsers", ":copyfrom", "COPY users FROM STDIN", [], "q.sql", [], []⟩

/-- A CopyFrom query with an empty name. -/
def qCopyAnon : PQuery := ⟨ "", ":copyfrom", "COPY users FROM STDIN", [], "q.sql", [], []⟩

/-- A request containing only the nameless CopyFrom query. -/
def reqC3cx : CodeGenRequest := ⟨pgSettings, ⟨ "public", []⟩, [qCopyAnon], "v1"⟩

/-- A request containing only the named CopyFrom query. -/
def reqC3w : CodeGenRequest := ⟨pgSettings, ⟨ "public", []⟩, [qCopyNamed], "v1"⟩

/-- A request whose catalog declares one enum type. -/
def reqEnum : CodeGenRequest :=
  ⟨pgSettings, ⟨ "public", [⟨ "public", [], [⟨ "user_status", [ "active", "in-active"], ""⟩]⟩]⟩, [], "v1"⟩

/-- One possible Go map iteration order over the output files. -/
def ktOrder1 : List String := [ "Models.kt", "Queries.kt", "QueriesImpl.kt"]

/-- Another possible Go map iteration order over the output files. -/
def ktOrder2 : List String := [ "QueriesImpl.kt", "Queries.kt", "Models.kt"]

/-- The single `id uuid not null` column of the one-column ids table. -/
def colIdsId : Column := ⟨ "id", true, false, ⟨ "", "", "uuid"⟩, some ⟨ "", "public", "ids"⟩, ""⟩

/-- A table with exactly one column. -/
def tblIds : CatTable := ⟨⟨ "", "public", "ids"⟩, [colIdsId], ""⟩

/-- A request whose catalog holds only the one-column ids table. -/
def reqOneField : CodeGenRequest := ⟨pgSettings, ⟨ "public", [⟨ "public", [tblIds], []⟩]⟩, [], "v1"⟩

/-- A one-column query whose single result column matches the one-field
Ids struct exactly. -/
def qOneField : PQuery := ⟨ "GetId", ":one", "SELECT id FROM ids", [], "q.sql", [], [colIdsId]⟩

/-- A column whose raw type is known to the engine tables. -/
def colBlob : Column := ⟨ "c", true, false, ⟨ "", "", "blob"⟩, none, ""⟩

/-- A second column agreeing with `colBlob` on raw type, nullability and
arrayness but differing in name, table and comment. -/
def colBlob2 : Column := ⟨ "other", true, false, ⟨ "", "", "blob"⟩, some ⟨ "", "x", "t"⟩, "cmt"⟩

/-- A request naming the mysql engine. -/
def mysqlReq : CodeGenRequest := ⟨⟨ "mysql", [], ⟨ "pkg", true, []⟩⟩, ⟨ "main", []⟩, [], "v1"⟩

/-- A column whose raw type no engine table knows. -/
def colUnknown : Column := ⟨ "u", true, false, ⟨ "", "", "sometype"⟩, none, ""⟩

/-- A request naming an engine with no type mapping. -/
def sqliteReq : CodeGenRequest := ⟨⟨ "sqlite", [], ⟨ "pkg", true, []⟩⟩, ⟨ "main", []⟩, [], "v1"⟩

/-! ## Helper lemmas: association lists -/

theorem alookup_cons_self {α β : Type} [DecidableEq α] (k : α) (v : β) (l : List (α × β)) :
    alookup ((k, v) :: l) k = some v := by
  simp [alookup]

theorem alookup_cons_ne {α β : Type} [DecidableEq α] {k k' : α} (v : β) (l : List (α × β))
    (h : k' ≠ k) : alookup ((k, v) :: l) k' = alookup l k' := by
  simp [alookup, h]

theorem alookup_eq_none {α β : Type} [DecidableEq α] (l : List (α × β)) (k : α) :
    alookup l k = none ↔ k ∉ l.map Prod.fst := by
  induction l with
  | nil => simp [alookup]
  | cons p rest ih =>
    obtain ⟨pk, pv⟩ := p
    by_cases hk : k = pk
    · subst hk
      simp [alookup]
    · simp [alookup, hk, ih]

/-! ## Helper lemmas: characters and derived names contain no underscore -/

theorem toUpper_ne_uscore (c : Char) (h : c ≠ '_') : c.toUpper ≠ '_' := by
  intro hc
  unfold Char.toUpper at hc
  simp only [] at hc
  by_cases hcond : c.toNat ≥ 97 ∧ c.toNat ≤ 122
  · rw [if_pos hcond] at hc
    set k := c.toNat - 32 with hk
    have hb1 : 65 ≤ k := by omega
    have hb2 : k ≤ 90 := by omega
    interval_cases k <;> exact absurd hc (by decide)
  · rw [if_neg hcond] at hc
    exact h hc

theorem toLower_ne_uscore (c : Char) (h : c ≠ '_') : c.toLower ≠ '_' := by
  intro hc
  unfold Char.toLower at hc
  simp only [] at hc
  by_cases hcond : c.toNat ≥ 65 ∧ c.toNat ≤ 90
  · rw [if_pos hcond] at hc
    set k := c.toNat + 32 with hk
    have hb1 : 97 ≤ k := by omega
    have hb2 : k ≤ 122 := by omega
    interval_cases k <;> exact absurd hc (by decide)
  · rw [if_neg hcond] at hc
    exact h hc

theorem splitOnChar_ne_nil (sep : Char) (l : List Char) : splitOnChar sep l ≠ [] := by
  cases l with
  | nil => simp [splitOnChar]
  | cons c cs =>
    simp only [splitOnChar]
    by_cases hc : c = sep
    · simp [hc]
    · simp only [hc, if_false]
      cases splitOnChar sep cs <;> simp

theorem mem_splitOnChar_not_sep (sep : Char) :
    ∀ (l : List Char), ∀ p ∈ splitOnChar sep l, sep ∉ p := by
  intro l
  induction l with
  | nil =>
    intro p hp
    simp [splitOnChar] at hp
    simp [hp]
  | cons c cs ih =>
    intro p hp
    simp only [splitOnChar] at hp
    by_cases hc : c = sep
    · rw [if_pos hc] at hp
      rcases List.mem_cons.mp hp with h | h
      · simp [h]
      · exact ih p h
    · rw [if_neg hc] at hp
      cases hsplit : splitOnChar sep cs with
      | nil => exact absurd hsplit (splitOnChar_ne_nil sep cs)
      | cons p0 ps =>
        rw [hsplit] at hp
        rcases List.mem_cons.mp hp with h | h
        · subst h
          intro hmem
          rcases List.mem_cons.mp hmem with h1 | h1
          · exact hc h1.symm
          · exact ih p0 (hsplit ▸ List.mem_cons_self p0 ps) h1
        · exact ih p (hsplit ▸ List.mem_cons_of_mem p0 h)

theorem stringsTitleAux_no_uscore (l : List Char) :
    ∀ (prev : Char), '_' ∉ l → '_' ∉ stringsTitleAux l prev := by
  induction l with
  | nil => intro prev _; simp [stringsTitleAux]
  | cons c cs ih =>
    intro prev h
    have hc : c ≠ '_' := fun hr => h (hr ▸ List.mem_cons_self c cs)
    have hcs : '_' ∉ cs := fun hr => h (List.mem_cons_of_mem c hr)
    simp only [stringsTitleAux]
    intro hmem
    rcases List.mem_cons.mp hmem with h1 | h1
    · by_cases hsep : isSeparatorGo prev = true
      · rw [if_pos hsep] at h1
        exact toUpper_ne_uscore c hc h1.symm
      · rw [if_neg hsep] at h1
        exact hc h1.symm
    · exact ih c hcs h1

theorem foldl_title_no_uscore (parts : List (List Char)) :
    ∀ (acc : List Char), '_' ∉ acc → (∀ p ∈ parts, '_' ∉ p) →
    '_' ∉ parts.foldl (fun out p => out ++ (stringsTitle ⟨p⟩).data) acc := by
  induction parts with
  | nil => intro acc hacc _; simpa using hacc
  | cons p ps ih =>
    intro acc hacc hp
    simp only [List.foldl_cons]
    apply ih
    · intro hmem
      rcases List.mem_append.mp hmem with h | h
      · exact hacc h
      · exact stringsTitleAux_no_uscore p ' ' (hp p (List.mem_cons_self p ps)) h
    · intro p2 hp2
      exact hp p2 (List.mem_cons_of_mem p hp2)

theorem dataClassName_no_uscore (settings : GenSettings) (h : settings.rename = [])
    (n : String) : '_' ∉ (dataClassName n settings).data := by
  unfold dataClassName
  rw [h]
  simp only [alookup, Option.getD_none, ne_eq, not_true_eq_false, if_false]
  exact foldl_title_no_uscore (splitOnChar '_' n.data) [] (by simp)
    (fun p hp => mem_splitOnChar_not_sep '_' n.data p hp)

theorem sdkLowerTitle_no_uscore (s : String) (h : '_' ∉ s.data) :
    '_' ∉ (sdkLowerTitle s).data := by
  unfold sdkLowerTitle
  cases hs : s.data with
  | nil => simp
  | cons c cs =>
    have hc : c ≠ '_' := fun hr => h (hs ▸ hr ▸ List.mem_cons_self c cs)
    have hcs : '_' ∉ cs := fun hr => h (hs ▸ List.mem_cons_of_mem c hr)
    simp only []
    intro hmem
    rcases List.mem_cons.mp hmem with h1 | h1
    · exact toLower_ne_uscore c hc h1.symm
    · exact hcs h1

theorem memberName_no_uscore (settings : GenSettings) (h : settings.rename = [])
    (n : String) : '_' ∉ (memberName n settings).data :=
  sdkLowerTitle_no_uscore _ (dataClassName_no_uscore settings h n)

/-! ## Helper lemmas: the decimal printer is injective and underscore-free -/

theorem digitChar_isDigit (d : Nat) (h : d < 10) : (digitChar d).isDigit = true := by
  interval_cases d <;> decide

theorem digitChar_toNat (d : Nat) (h : d < 10) : (digitChar d).toNat = 48 + d := by
  interval_cases d <;> decide

theorem natDigitsAux_all_digits :
    ∀ (fuel n : Nat), ∀ c ∈ natDigitsAux fuel n, c.isDigit = true := by
  intro fuel
  induction fuel with
  | zero => intro n c hc; simp [natDigitsAux] at hc
  | succ fuel ih =>
    intro n c hc
    simp only [natDigitsAux] at hc
    by_cases hn : n < 10
    · rw [if_pos hn] at hc
      simp at hc
      exact hc ▸ digitChar_isDigit n hn
    · rw [if_neg hn] at hc
      rcases List.mem_append.mp hc with h | h
      · exact ih (n / 10) c h
      · simp at h
        exact h ▸ digitChar_isDigit (n % 10) (Nat.mod_lt n (by omega))

theorem natDigitsAux_foldl :
    ∀ (fuel n : Nat), n < fuel → ∀ (a : Nat),
      (natDigitsAux fuel n).foldl (fun acc c => acc * 10 + (c.toNat - 48)) a =
        a * 10 ^ (natDigitsAux fuel n).length + n := by
  intro fuel
  induction fuel with
  | zero => intro n hn; omega
  | succ fuel ih =>
    intro n hn a
    simp only [natDigitsAux]
    by_cases hlt : n < 10
    · rw [if_pos hlt]
      simp [digitChar_toNat n hlt]
    · rw [if_neg hlt]
      have hdiv : n / 10 < fuel := by
        have h1 : n / 10 < n := Nat.div_lt_self (by omega) (by omega)
        omega
      rw [List.foldl_append, ih (n / 10) hdiv a]
      simp only [List.foldl_cons, List.foldl_nil, List.length_append, List.length_cons,
        List.length_nil]
      rw [digitChar_toNat (n % 10) (Nat.mod_lt n (by omega))]
      have hmod : 48 + n % 10 - 48 = n % 10 := by omega
      rw [hmod, pow_succ]
      have hrec : 10 * (n / 10) + n % 10 = n := Nat.div_add_mod n 10
      ring_nf
      omega

theorem natToStr_data_inj {m n : Nat} (h : (natToStr m).data = (natToStr n).data) : m = n := by
  have hdata : natDigitsAux (m+1) m = natDigitsAux (n+1) n := by
    simpa [natToStr] using h
  have hm := natDigitsAux_foldl (m+1) m (by omega) 0
  have hn := natDigitsAux_foldl (n+1) n (by omega) 0
  rw [hdata] at hm
  simp at hm hn
  omega

theorem natToStr_no_uscore (n : Nat) : '_' ∉ (natToStr n).data := by
  intro hmem
  have := natDigitsAux_all_digits (n+1) n '_' (by simpa [natToStr] using hmem)
  simp [Char.isDigit] at this

/-! ## Helper lemmas: suffixed field names are injective in the counter -/

theorem uscore_split_unique :
    ∀ (l1 l2 r1 r2 : List Char), '_' ∉ l1 → '_' ∉ l2 →
      l1 ++ '_' :: r1 = l2 ++ '_' :: r2 → l1 = l2 ∧ r1 = r2 := by
  intro l1
  induction l1 with
  | nil =>
    intro l2 r1 r2 _ h2 heq
    cases l2 with
    | nil => simpa using heq
    | cons c cs =>
      simp at heq
      exact absurd (heq.1 ▸ List.mem_cons_self c cs) h2
  | cons c cs ih =>
    intro l2 r1 r2 h1 h2 heq
    cases l2 with
    | nil =>
      simp at heq
      exact absurd (heq.1 ▸ List.mem_cons_self c cs) h1
    | cons d ds =>
      simp only [List.cons_append, List.cons.injEq] at heq
      obtain ⟨hcd, hrest⟩ := heq
      have h1' : '_' ∉ cs := fun hr => h1 (List.mem_cons_of_mem c hr)
      have h2' : '_' ∉ ds := fun hr => h2 (List.mem_cons_of_mem d hr)
      obtain ⟨ha, hb⟩ := ih ds r1 r2 h1' h2' hrest
      exact ⟨by rw [hcd, ha], hb⟩

theorem assignName_ne {b1 b2 : String} (h1 : '_' ∉ b1.data) (h2 : '_' ∉ b2.data)
    {v1 v2 : Nat} (hv : v1 ≠ v2) : assignName b1 v1 ≠ assignName b2 v2 := by
  intro heq
  unfold assignName at heq
  have hdata := congrArg String.data heq
  rcases Nat.eq_zero_or_pos v1 with hz1 | hp1
  · rcases Nat.eq_zero_or_pos v2 with hz2 | hp2
    · exact hv (hz1.trans hz2.symm)
    · rw [if_neg (by omega), if_pos (by omega)] at hdata
      simp only [String.data_append] at hdata
      apply h1
      rw [hdata]
      simp
  · rcases Nat.eq_zero_or_pos v2 with hz2 | hp2
    · rw [if_pos (by omega), if_neg (by omega)] at hdata
      simp only [String.data_append] at hdata
      apply h2
      rw [← hdata]
      simp
    · rw [if_pos (by omega), if_pos (by omega)] at hdata
      simp only [String.data_append] at hdata
      have hsplit : b1.data ++ '_' :: (natToStr (v1+1)).data =
          b2.data ++ '_' :: (natToStr (v2+1)).data := by
        simpa using hdata
      obtain ⟨_, hsuf⟩ := uscore_split_unique b1.data b2.data _ _ h1 h2 hsplit
      have hvv : v1 + 1 = v2 + 1 := natToStr_data_inj hsuf
      omega

/-! ## Helper lemmas: sorting and fold membership -/

theorem mem_insertByKey {α : Type} (key : α → String) (a x : α) (l : List α) :
    x ∈ insertByKey key a l ↔ x = a ∨ x ∈ l := by
  induction l with
  | nil => simp [insertByKey]
  | cons b bs ih =>
    simp only [insertByKey]
    by_cases hc : charListLt (key b).data (key a).data = true
    · rw [if_pos hc]
      simp only [List.mem_cons, ih]
      tauto
    · rw [if_neg hc]
      simp only [List.mem_cons]

theorem mem_sortByKey {α : Type} (key : α → String) (x : α) (l : List α) :
    x ∈ sortByKey key l ↔ x ∈ l := by
  induction l with
  | nil => simp [sortByKey]
  | cons a as ih =>
    simp only [sortByKey, List.foldr_cons]
    rw [mem_insertByKey]
    simp only [sortByKey] at ih
    rw [ih, List.mem_cons]

/-! ## Helper lemmas: the ktColumnsToStruct loop -/

theorem ktCTSAux_snd_length (req : CodeGenRequest) (namer : Column → Nat → String) :
    ∀ (cols : List GoColumn) (idSeen : List (Nat × Field)) (ns : List (String × Nat)),
      (ktCTSAux req namer cols idSeen ns).2.length = cols.length := by
  intro cols
  induction cols with
  | nil => intro idSeen ns; simp [ktCTSAux]
  | cons c rest ih =>
    intro idSeen ns
    simp only [ktCTSAux]
    cases h : alookup idSeen c.id with
    | some f => simp [ih]
    | none => simp [ih]

theorem finalIdSeen_preserves (req : CodeGenRequest) (namer : Column → Nat → String) :
    ∀ (cols : List GoColumn) (idSeen : List (Nat × Field)) (ns : List (String × Nat))
      (k : Nat) (f : Field),
      alookup idSeen k = some f →
      alookup (finalIdSeen req namer cols idSeen ns) k = some f := by
  intro cols
  induction cols with
  | nil => intro idSeen ns k f h; simpa [finalIdSeen] using h
  | cons c rest ih =>
    intro idSeen ns k f h
    simp only [finalIdSeen]
    cases hl : alookup idSeen c.id with
    | some g =>
      exact ih idSeen ns k f h
    | none =>
      apply ih
      have hkc : k ≠ c.id := by
        intro he
        rw [he, hl] at h
        exact Option.noConfusion h
      rw [alookup_cons_ne _ _ hkc]
      exact h

theorem ktCTSAux_snd_getElem (req : CodeGenRequest) (namer : Column → Nat → String) :
    ∀ (cols : List GoColumn) (idSeen : List (Nat × Field)) (ns : List (String × Nat))
      (i : Nat) (ci : GoColumn),
      cols[i]? = some ci →
      ((ktCTSAux req namer cols idSeen ns).2)[i]? =
        alookup (finalIdSeen req namer cols idSeen ns) ci.id := by
  intro cols
  induction cols with
  | nil => intro idSeen ns i ci h; simp at h
  | cons c rest ih =>
    intro idSeen ns i ci h
    cases i with
    | zero =>
      rw [List.getElem?_cons_zero] at h
      have hc : c = ci := Option.some.injEq _ _ ▸ h
      subst hc
      simp only [ktCTSAux, finalIdSeen]
      cases hl : alookup idSeen c.id with
      | some f =>
        simp only [List.getElem?_cons_zero]
        exact (finalIdSeen_preserves req namer rest idSeen ns c.id f hl).symm
      | none =>
        simp only [List.getElem?_cons_zero]
        exact (finalIdSeen_preserves req namer rest _ _ c.id _
          (alookup_cons_self c.id _ idSeen)).symm
    | succ i' =>
      rw [List.getElem?_cons_succ] at h
      simp only [ktCTSAux, finalIdSeen]
      cases hl : alookup idSeen c.id with
      | some f =>
        simp only [List.getElem?_cons_succ]
        exact ih idSeen ns i' ci h
      | none =>
        simp only [List.getElem?_cons_succ]
        exact ih _ _ i' ci h

theorem card_insert_sdiff {α : Type} [DecidableEq α] (a : α) (s t : Finset α) (h : a ∉ t) :
    (insert a s \ t).card = 1 + (s \ insert a t).card := by
  have h1 : insert a s \ t = insert a (s \ insert a t) := by
    ext x
    by_cases hxa : x = a
    · subst hxa
      simp [h]
    · simp [hxa]
  rw [h1, Finset.card_insert_of_not_mem (by simp)]
  omega

theorem ktCTSAux_fst_length (req : CodeGenRequest) (namer : Column → Nat → String) :
    ∀ (cols : List GoColumn) (idSeen : List (Nat × Field)) (ns : List (String × Nat)),
      (ktCTSAux req namer cols idSeen ns).1.length =
        ((cols.map GoColumn.id).toFinset \ (idSeen.map Prod.fst).toFinset).card := by
  intro cols
  induction cols with
  | nil => intro idSeen ns; simp [ktCTSAux]
  | cons c rest ih =>
    intro idSeen ns
    simp only [ktCTSAux, List.map_cons, List.toFinset_cons]
    cases hl : alookup idSeen c.id with
    | some f =>
      have hmem : c.id ∈ (idSeen.map Prod.fst).toFinset := by
        rw [List.mem_toFinset]
        by_contra hmem
        rw [← alookup_eq_none idSeen c.id] at hmem
        rw [hmem] at hl
        exact Option.noConfusion hl
      simp only []
      rw [Finset.insert_sdiff_of_mem _ hmem]
      exact ih idSeen ns
    | none =>
      have hnmem : c.id ∉ (idSeen.map Prod.fst).toFinset := by
        rw [List.mem_toFinset]
        exact (alookup_eq_none idSeen c.id).mp hl
      simp only [List.length_cons]
      rw [ih, card_insert_sdiff c.id _ _ hnmem]
      simp only [List.map_cons, List.toFinset_cons]
      omega

theorem mem_foldl_append {α β : Type} (f : α → List β) (l : List α) :
    ∀ (acc : List β) (x : β),
      (x ∈ l.foldl (fun a s => a ++ f s) acc ↔ x ∈ acc ∨ ∃ s ∈ l, x ∈ f s) := by
  induction l with
  | nil => intro acc x; simp
  | cons a as ih =>
    intro acc x
    simp only [List.foldl_cons]
    rw [ih]
    simp only [List.mem_append, List.mem_cons]
    constructor
    · rintro (⟨h | h⟩ | ⟨s, hs, hx⟩)
      · exact Or.inl h
      · exact Or.inr ⟨a, Or.inl rfl, h⟩
      · exact Or.inr ⟨s, Or.inr hs, hx⟩
    · rintro (h | ⟨s, hs | hs, hx⟩)
      · exact Or.inl (Or.inl h)
      · exact Or.inl (Or.inr (hs ▸ hx))
      · exact Or.inr ⟨s, hs, hx⟩

/-! ## Helper lemmas: nameSeen counters and same-raw-name field names -/

theorem nsCount_bump_self (ns : List (String × Nat)) (k : String) :
    nsCount (bumpNameSeen ns k) k = nsCount ns k + 1 := by
  simp [nsCount, bumpNameSeen, alookup_cons_self]

theorem nsCount_bump_ge (ns : List (String × Nat)) (k r : String) :
    nsCount ns r ≤ nsCount (bumpNameSeen ns k) r := by
  by_cases h : r = k
  · subst h
    rw [nsCount_bump_self]
    omega
  · simp [nsCount, bumpNameSeen, alookup_cons_ne _ _ h]

theorem ktCTSAux_firstOcc_name (req : CodeGenRequest) (namer : Column → Nat → String) :
    ∀ (cols : List GoColumn) (idSeen : List (Nat × Field)) (ns : List (String × Nat))
      (j : Nat) (cj : GoColumn),
      cols[j]? = some cj →
      alookup idSeen cj.id = none →
      (∀ k ck, k < j → cols[k]? = some ck → ck.id ≠ cj.id) →
      ∃ v, nsCount ns cj.column.name ≤ v ∧
        ((ktCTSAux req namer cols idSeen ns).2)[j]? =
          some ⟨assignName (memberName (namer cj.column cj.id) req.settings) v,
                makeType req cj.column, ""⟩ := by
  intro cols
  induction cols with
  | nil => intro idSeen ns j cj h; simp at h
  | cons c rest ih =>
    intro idSeen ns j cj hj hseen hpref
    cases j with
    | zero =>
      rw [List.getElem?_cons_zero] at hj
      have hc : c = cj := by injection hj
      subst hc
      refine ⟨nsCount ns c.column.name, le_refl _, ?_⟩
      simp only [ktCTSAux, hseen]
      simp [mkCTSField]
    | succ j2 =>
      rw [List.getElem?_cons_succ] at hj
      simp only [ktCTSAux]
      cases hl : alookup idSeen c.id with
      | some f =>
        simp only [List.getElem?_cons_succ]
        exact ih idSeen ns j2 cj hj hseen
          (fun k ck hk hck => hpref (k+1) ck (by omega)
            (by rw [List.getElem?_cons_succ]; exact hck))
      | none =>
        simp only [List.getElem?_cons_succ]
        have hne : cj.id ≠ c.id := by
          intro he
          exact hpref 0 c (by omega) List.getElem?_cons_zero he.symm
        have hseen2 : alookup ((c.id, mkCTSField req namer ns c) :: idSeen) cj.id = none := by
          rw [alookup_cons_ne _ _ hne]
          exact hseen
        obtain ⟨v, hv, hbind⟩ := ih _ _ j2 cj hj hseen2
          (fun k ck hk hck => hpref (k+1) ck (by omega)
            (by rw [List.getElem?_cons_succ]; exact hck))
        exact ⟨v, le_trans (nsCount_bump_ge ns c.column.name cj.column.name) hv, hbind⟩

theorem ktCTSAux_sameRaw_distinct (req : CodeGenRequest) (namer : Column → Nat → String)
    (hren : req.settings.rename = []) :
    ∀ (cols : List GoColumn) (idSeen : List (Nat × Field)) (ns : List (String × Nat))
      (i j : Nat) (ci cj : GoColumn),
      cols[i]? = some ci → cols[j]? = some cj → i < j →
      alookup idSeen ci.id = none → alookup idSeen cj.id = none →
      (∀ k ck, k < i → cols[k]? = some ck → ck.id ≠ ci.id) →
      (∀ k ck, k < j → cols[k]? = some ck → ck.id ≠ cj.id) →
      ci.column.name = cj.column.name →
      (((ktCTSAux req namer cols idSeen ns).2)[i]?).map Field.name ≠
        (((ktCTSAux req namer cols idSeen ns).2)[j]?).map Field.name := by
  intro cols
  induction cols with
  | nil => intro idSeen ns i j ci cj hi _ _ _ _ _ _ _; simp at hi
  | cons c rest ih =>
    intro idSeen ns i j ci cj hi hj hij hsi hsj hpi hpj hraw
    cases j with
    | zero => omega
    | succ j2 =>
      rw [List.getElem?_cons_succ] at hj
      cases i with
      | zero =>
        rw [List.getElem?_cons_zero] at hi
        have hc : c = ci := by injection hi
        subst hc
        simp only [ktCTSAux, hsi]
        simp only [List.getElem?_cons_zero, List.getElem?_cons_succ]
        have hne : cj.id ≠ c.id := by
          intro he
          exact hpj 0 c (by omega) List.getElem?_cons_zero he.symm
        have hsj2 : alookup ((c.id, mkCTSField req namer ns c) :: idSeen) cj.id = none := by
          rw [alookup_cons_ne _ _ hne]
          exact hsj
        obtain ⟨v, hv, hbind⟩ := ktCTSAux_firstOcc_name req namer rest _ _ j2 cj hj hsj2
          (fun k ck hk hck => hpj (k+1) ck (by omega)
            (by rw [List.getElem?_cons_succ]; exact hck))
        rw [hbind]
        have hvc : nsCount (bumpNameSeen ns c.column.name) cj.column.name =
            nsCount ns c.column.name + 1 := by
          rw [← hraw]
          exact nsCount_bump_self ns c.column.name
        rw [hvc] at hv
        simp only [mkCTSField, Option.map_some']
        intro heq
        have hnames := Option.some.inj heq
        exact assignName_ne (memberName_no_uscore _ hren _) (memberName_no_uscore _ hren _)
          (show nsCount ns c.column.name ≠ v by omega) hnames
      | succ i2 =>
        rw [List.getElem?_cons_succ] at hi
        simp only [ktCTSAux]
        cases hl : alookup idSeen c.id with
        | some f =>
          simp only [List.getElem?_cons_succ]
          exact ih idSeen ns i2 j2 ci cj hi hj (by omega) hsi hsj
            (fun k ck hk hck => hpi (k+1) ck (by omega)
              (by rw [List.getElem?_cons_succ]; exact hck))
            (fun k ck hk hck => hpj (k+1) ck (by omega)
              (by rw [List.getElem?_cons_succ]; exact hck))
            hraw
        | none =>
          simp only [List.getElem?_cons_succ]
          have hnei : ci.id ≠ c.id := by
            intro he
            exact hpi 0 c (by omega) List.getElem?_cons_zero he.symm
          have hnej : cj.id ≠ c.id := by
            intro he
            exact hpj 0 c (by omega) List.getElem?_cons_zero he.symm
          exact ih _ _ i2 j2 ci cj hi hj (by omega)
            (by rw [alookup_cons_ne _ _ hnei]; exact hsi)
            (by rw [alookup_cons_ne _ _ hnej]; exact hsj)
            (fun k ck hk hck => hpi (k+1) ck (by omega)
              (by rw [List.getElem?_cons_succ]; exact hck))
            (fun k ck hk hck => hpj (k+1) ck (by omega)
              (by rw [List.getElem?_cons_succ]; exact hck))
            hraw

/-! ## Helper lemmas: buildQueryStep, buildQueriesAux and Generate -/

theorem buildQueryStep_ok_some {req : CodeGenRequest} {structs : List Struct} {q : PQuery}
    {gq : Query} (h : buildQueryStep req structs q = Except.ok (some gq)) :
    q.name ≠ "" ∧ q.cmd ≠ "" ∧ q.cmd ≠ cmdCopyFrom ∧ gq = mkCompiledQuery req structs q := by
  unfold buildQueryStep at h
  by_cases h1 : q.name = ""
  · rw [if_pos h1] at h
    simp at h
  · rw [if_neg h1] at h
    by_cases h2 : q.cmd = ""
    · rw [if_pos h2] at h
      simp at h
    · rw [if_neg h2] at h
      by_cases h3 : q.cmd = cmdCopyFrom
      · rw [if_pos h3] at h
        simp at h
      · rw [if_neg h3] at h
        simp at h
        exact ⟨h1, h2, h3, h.symm⟩

theorem buildQueryStep_copy_error {req : CodeGenRequest} {structs : List Struct} {q : PQuery}
    (h1 : q.name ≠ "") (h2 : q.cmd ≠ "") (h3 : q.cmd = cmdCopyFrom) :
    buildQueryStep req structs q =
      Except.error "Support for CopyFrom in Kotlin is not implemented" := by
  unfold buildQueryStep
  rw [if_neg h1, if_neg h2, if_pos h3]

theorem buildQueryStep_error_msg {req : CodeGenRequest} {structs : List Struct} {q : PQuery}
    {e : String} (h : buildQueryStep req structs q = Except.error e) :
    e = "Support for CopyFrom in Kotlin is not implemented" := by
  unfold buildQueryStep at h
  by_cases h1 : q.name = ""
  · rw [if_pos h1] at h
    simp at h
  · rw [if_neg h1] at h
    by_cases h2 : q.cmd = ""
    · rw [if_pos h2] at h
      simp at h
    · rw [if_neg h2] at h
      by_cases h3 : q.cmd = cmdCopyFrom
      · rw [if_pos h3] at h
        simp at h
        exact h.symm
      · rw [if_neg h3] at h
        simp at h

theorem buildQueriesAux_error_of_mem (req : CodeGenRequest) (structs : List Struct) :
    ∀ (qs : List PQuery) (q : PQuery), q ∈ qs → q.name ≠ "" → q.cmd ≠ "" → q.cmd = cmdCopyFrom →
      buildQueriesAux req structs qs =
        Except.error "Support for CopyFrom in Kotlin is not implemented" := by
  intro qs
  induction qs with
  | nil => intro q hq; simp at hq
  | cons q0 rest ih =>
    intro q hq hn hc hcopy
    simp only [buildQueriesAux]
    rcases List.mem_cons.mp hq with he | he
    · subst he
      rw [buildQueryStep_copy_error hn hc hcopy]
    · cases hstep : buildQueryStep req structs q0 with
      | error e =>
        rw [buildQueryStep_error_msg hstep]
      | ok o =>
        cases o with
        | none => exact ih q he hn hc hcopy
        | some gq =>
          rw [ih q he hn hc hcopy]

/-! ## Helper lemmas: type resolution -/

theorem makeType_engine (req : CodeGenRequest) (c : Column) :
    (makeType req c).engine = req.settings.engine := rfl

theorem makeType_ne_zero (req : CodeGenRequest) (c : Column) : makeType req c ≠ zeroKtType := by
  intro h
  by_cases he : req.settings.engine = ""
  · have hname : (makeType req c).name = "Any" := by
      simp [makeType, ktInnerType, he]
    rw [h] at hname
    simp [zeroKtType] at hname
  · have heng := makeType_engine req c
    rw [h] at heng
    simp [zeroKtType] at heng
    exact he heng.symm

/-! ## Helper lemmas: enum construction -/

theorem mem_buildEnums {req : CodeGenRequest} {e : Enum} (h : e ∈ buildEnums req) :
    ∃ schema ∈ req.catalog.schemas, e ∈ buildEnumsOfSchema req schema := by
  unfold buildEnums at h
  rw [mem_sortByKey] at h
  have h2 := (mem_foldl_append (buildEnumsOfSchema req) req.catalog.schemas [] e).mp h
  simpa using h2

theorem ktEnumValueName_eq_spec (v : String) : ktEnumValueName v = enumValueNameSpec v := by
  unfold ktEnumValueName enumValueNameSpec strToUpper
  refine congrArg String.mk ?_
  have hmaps : ∀ l : List Char,
      ((l.map (fun c => if c = '-' then '_' else c)).map
          (fun c => if c = ':' then '_' else c)).map (fun c => if c = '/' then '_' else c) =
        l.map (fun c => if c = '-' || c = ':' || c = '/' then '_' else c) := by
    intro l
    induction l with
    | nil => simp
    | cons c cs ihc =>
      simp only [List.map_cons, ihc, List.cons.injEq, and_true]
      by_cases h1 : c = '-'
      · simp [h1]
      · by_cases h2 : c = ':'
        · simp [h1, h2]
        · by_cases h3 : c = '/'
          · simp [h1, h2, h3]
          · simp [h1, h2, h3]
  simp only []
  rw [hmaps]

/-! ## Helper lemmas: the placeholder scanner satisfies the token-rewrite relation -/

theorem isDigit_isWordChar {c : Char} (h : c.isDigit = true) : isWordChar c = true := by
  simp [isWordChar, Char.isAlphanum, h]

theorem takeWhile_digits_decomp (l : List Char) :
    l.takeWhile Char.isDigit ++ l.drop (l.takeWhile Char.isDigit).length = l := by
  have h2 := List.prefix_iff_eq_take.mp (List.takeWhile_prefix (l := l) (p := Char.isDigit))
  calc l.takeWhile Char.isDigit ++ l.drop (l.takeWhile Char.isDigit).length
      = l.take (l.takeWhile Char.isDigit).length ++
          l.drop (l.takeWhile Char.isDigit).length := by rw [← h2]
    _ = l := List.take_append_drop _ l

theorem digit_split_unique (digs2 rest2 : List Char)
    (hd : ∀ c ∈ digs2, c.isDigit = true)
    (hb : ∀ d r, rest2 = d :: r → isWordChar d = false) :
    (digs2 ++ rest2).takeWhile Char.isDigit = digs2 := by
  induction digs2 with
  | nil =>
    cases hr : rest2 with
    | nil => simp
    | cons d r =>
      have hw := hb d r hr
      have hdig : d.isDigit = false := by
        cases hx : d.isDigit
        · rfl
        · rw [isDigit_isWordChar hx] at hw
          exact Bool.noConfusion hw
      simp [List.takeWhile_cons, hdig]
  | cons c cs ih =>
    have hc := hd c (List.mem_cons_self c cs)
    simp only [List.cons_append, List.takeWhile_cons, hc, if_true]
    rw [ih (fun x hx => hd x (List.mem_cons_of_mem c hx))]

theorem getLast?_of_ne_nil {digs : List Char} (h : digs ≠ []) :
    digs.getLast? = some (digs.getLastD '0') := by
  cases hg : digs.getLast? with
  | none => exact absurd (List.getLast?_eq_none_iff.mp hg) h
  | some x =>
    rw [List.getLastD_eq_getLast?, hg]
    rfl

theorem replacePHAux_rewrites :
    ∀ (n : Nat) (l : List Char) (prev : Option Char), l.length < n →
      PHRewrites prev l (replacePHAux n l prev) := by
  intro n
  induction n with
  | zero =>
    intro l prev h
    exact absurd h (by omega)
  | succ n ih =>
    intro l prev h
    cases l with
    | nil =>
      simp only [replacePHAux]
      exact PHRewrites.nil prev
    | cons c rest =>
      have hlen : rest.length < n := by
        simp only [List.length_cons] at h
        omega
      simp only [replacePHAux]
      by_cases hcond :
          (c = '$' && (match prev with | none => true | some p => !isWordChar p)) = true
      · rw [if_pos hcond]
        rw [Bool.and_eq_true] at hcond
        have hc : c = '$' := of_decide_eq_true hcond.1
        have hprev : ∀ p, prev = some p → isWordChar p = false := by
          have h2 := hcond.2
          intro p hp
          rw [hp] at h2
          simp at h2
          exact h2
        subst hc
        by_cases hde : (rest.takeWhile Char.isDigit).isEmpty = true
        · rw [if_pos hde]
          refine PHRewrites.keep prev '$' rest _ ?_ (ih rest (some '$') hlen)
          rintro ⟨-, digs, rest2, hsplit, hne, hdigs, -⟩
          injection hsplit with hdd hr
          cases digs with
          | nil => exact hne rfl
          | cons d ds =>
            have hd := hdigs d (List.mem_cons_self d ds)
            rw [hr] at hde
            simp [List.takeWhile_cons, hd] at hde
        · rw [if_neg hde]
          have hne : rest.takeWhile Char.isDigit ≠ [] := by
            intro hnil
            rw [hnil] at hde
            simp at hde
          split
          next hrest2 =>
            have hdecomp := takeWhile_digits_decomp rest
            rw [hrest2, List.append_nil] at hdecomp
            have hlast := getLast?_of_ne_nil hne
            have hrw := PHRewrites.replace prev (rest.takeWhile Char.isDigit) [] []
              ((rest.takeWhile Char.isDigit).getLastD '0') hprev hne
              (fun x hx => List.mem_takeWhile_imp hx)
              (fun d r hdr => List.noConfusion hdr)
              hlast (PHRewrites.nil _)
            rw [List.append_nil, hdecomp] at hrw
            exact hrw
          next d r2 hrest2 =>
            by_cases hw : isWordChar d = true
            · rw [if_pos hw]
              refine PHRewrites.keep prev '$' rest _ ?_ (ih rest (some '$') hlen)
              rintro ⟨-, digs, rest2, hsplit, -, hdigs, hb⟩
              injection hsplit with hdd hr
              have hr2 : rest = digs ++ rest2 := hr
              have htw : (digs ++ rest2).takeWhile Char.isDigit = digs :=
                digit_split_unique digs rest2 hdigs hb
              have hdropr : List.drop (List.takeWhile Char.isDigit rest).length rest = rest2 := by
                rw [hr2, htw]
                exact List.drop_left digs rest2
              have hbd := hb d r2 (by rw [← hdropr]; exact hrest2)
              rw [hw] at hbd
              exact Bool.noConfusion hbd
            · rw [if_neg hw]
              have hwf : isWordChar d = false := by
                cases hx : isWordChar d
                · rfl
                · exact absurd hx hw
              have hdecomp := takeWhile_digits_decomp rest
              have hlast := getLast?_of_ne_nil hne
              have hdroplen : (rest.drop (rest.takeWhile Char.isDigit).length).length < n := by
                have hd2 := List.length_drop (rest.takeWhile Char.isDigit).length rest
                omega
              have hrec := ih (rest.drop (rest.takeWhile Char.isDigit).length)
                (some ((rest.takeWhile Char.isDigit).getLastD '0')) hdroplen
              have hrw := PHRewrites.replace prev (rest.takeWhile Char.isDigit)
                (rest.drop (rest.takeWhile Char.isDigit).length)
                (replacePHAux n (rest.drop (rest.takeWhile Char.isDigit).length)
                  (some ((rest.takeWhile Char.isDigit).getLastD '0')))
                ((rest.takeWhile Char.isDigit).getLastD '0') hprev hne
                (fun x hx => List.mem_takeWhile_imp hx)
                (fun d2 r hd2r => by
                  rw [hrest2] at hd2r
                  injection hd2r with hdd2 htl2
                  rw [← hdd2]
                  exact hwf)
                hlast hrec
              have hfix : ('$' :: rest.takeWhile Char.isDigit) ++
                  rest.drop (rest.takeWhile Char.isDigit).length = '$' :: rest := by
                rw [List.cons_append, hdecomp]
              rw [hfix] at hrw
              exact hrw
      · rw [if_neg hcond]
        refine PHRewrites.keep prev c rest _ ?_ (ih rest (some c) hlen)
        rintro ⟨hpv, digs, rest2, hsplit, -, -, -⟩
        injection hsplit with hc hrr
        apply hcond
        rw [hc, Bool.and_eq_true]
        refine ⟨by simp, ?_⟩
        cases hp : prev with
        | none => rfl
        | some p =>
          have hpw := hpv p hp
          simp [hpw]

/-! ## Claim theorems -/

/-- C1: For every query parameter list, the first occurrence of each
positional parameter number creates exactly one Field, so the argument
struct has one Field per distinct number, while the JDBCParamBindings list
has one entry per usage, and any two usages of the same number reference
the same Field entry. -/
theorem c1_param_fields_and_bindings (req : CodeGenRequest) (namer : Column → Nat → String)
    (name : String) (cols : List GoColumn) :
    (ktColumnsToStruct req name cols namer).jdbcParamBindings.length = cols.length ∧
    (ktColumnsToStruct req name cols namer).fields.length = (cols.map GoColumn.id).dedup.length ∧
    ∀ (i j : Nat) (ci cj : GoColumn), cols[i]? = some ci → cols[j]? = some cj → ci.id = cj.id →
      (ktColumnsToStruct req name cols namer).jdbcParamBindings[i]? =
        (ktColumnsToStruct req name cols namer).jdbcParamBindings[j]? := by
  refine ⟨?_, ?_, ?_⟩
  · simpa [ktColumnsToStruct] using ktCTSAux_snd_length req namer cols [] []
  · have h := ktCTSAux_fst_length req namer cols [] []
    simp only [List.map_nil, List.toFinset_nil, Finset.sdiff_empty] at h
    simpa [ktColumnsToStruct, List.card_toFinset] using h
  · intro i j ci cj hi hj hid
    have h1 := ktCTSAux_snd_getElem req namer cols [] [] i ci hi
    have h2 := ktCTSAux_snd_getElem req namer cols [] [] j cj hj
    simp only [ktColumnsToStruct]
    rw [h1, h2, hid]

/-- C1 witness: parameter number 1 used three times and number 2 once
yields 2 argument fields and 4 bindings, usages of number 1 sharing one
Field. -/
theorem c1_witness :
    (ktColumnsToStruct emptyReq "W" colsC1 ktParamName).jdbcParamBindings.length = 4 ∧
    (ktColumnsToStruct emptyReq "W" colsC1 ktParamName).fields.length = 2 ∧
    (ktColumnsToStruct emptyReq "W" colsC1 ktParamName).jdbcParamBindings[0]? =
      (ktColumnsToStruct emptyReq "W" colsC1 ktParamName).jdbcParamBindings[2]? ∧
    (ktColumnsToStruct emptyReq "W" colsC1 ktParamName).jdbcParamBindings[0]? =
      (ktColumnsToStruct emptyReq "W" colsC1 ktParamName).jdbcParamBindings[3]? := by
  have h := c1_param_fields_and_bindings emptyReq ktParamName "W" colsC1
  refine ⟨h.1.trans (by decide), h.2.1.trans (by decide), ?_, ?_⟩
  · exact h.2.2 0 2 ⟨1, colParamA⟩ ⟨1, colParamA⟩ (by decide) (by decide) rfl
  · exact h.2.2 0 3 ⟨1, colParamA⟩ ⟨1, colParamA⟩ (by decide) (by decide) rfl

/-- C2 counterexample: the claim as stated is false for one-column
queries: the single result column of qOneField exactly matches the
one-field Ids struct (the match predicate holds), yet the compiled query's
return descriptor is a bare scalar that references no struct at all,
because buildQueries only attempts struct reuse for two or more result
columns. -/
theorem c2_counterexample :
    ((buildDataClasses reqOneField).any
      (fun s => structMatches reqOneField s qOneField.columns)) = true ∧
    buildQueryStep reqOneField (buildDataClasses reqOneField) qOneField =
      Except.ok (some (mkCompiledQuery reqOneField (buildDataClasses reqOneField) qOneField)) ∧
    (mkCompiledQuery reqOneField (buildDataClasses reqOneField) qOneField).ret.struct = none ∧
    (mkCompiledQuery reqOneField (buildDataClasses reqOneField) qOneField).ret.typ =
      makeType reqOneField colIdsId := by
  exact ⟨by decide, rfl, rfl, rfl⟩

/-- C2 amended: for every query with two or more result columns, when some
known table struct matches the query's result columns (equal counts and,
positionwise, equal derived name, structurally equal type and same owning
table up to the default schema), the compiled query's return descriptor
reuses the first matching existing struct and its newly-emitted flag is
false; a one-column query yields a bare scalar even when a one-field
struct matches. -/
theorem c2_reuse_matching_struct (req : CodeGenRequest) (structs : List Struct) (q : PQuery)
    (gq : Query) (hstep : buildQueryStep req structs q = Except.ok (some gq))
    (hlen : 2 ≤ q.columns.length)
    (hmatch : ∃ s ∈ structs, structMatches req s q.columns = true) :
    gq.ret.emit = false ∧
    gq.ret.struct = structs.find? (fun s => structMatches req s q.columns) ∧
    ∃ s ∈ structs, structMatches req s q.columns = true ∧ gq.ret.struct = some s := by
  obtain ⟨-, -, -, hgq⟩ := buildQueryStep_ok_some hstep
  subst hgq
  have hsome : (structs.find? (fun s => structMatches req s q.columns)).isSome = true := by
    rw [List.find?_isSome]
    exact hmatch
  obtain ⟨s0, hs0⟩ := Option.isSome_iff_exists.mp hsome
  have hret : (mkCompiledQuery req structs q).ret =
      retValue req structs (stringsTitle q.name) q.columns := rfl
  rw [hret]
  cases hq : q.columns with
  | nil =>
    rw [hq] at hlen
    simp at hlen
  | cons c1 tail =>
    cases htail : tail with
    | nil =>
      rw [hq, htail] at hlen
      simp at hlen
    | cons c2 rest =>
      subst htail
      rw [hq] at hs0
      have hmem := List.mem_of_find?_eq_some hs0
      have hp := List.find?_some hs0
      refine ⟨?_, ?_, s0, hmem, hp, ?_⟩ <;> simp [retValue, hs0, emptyQueryValue]

/-- C2 witness: a query selecting exactly the users table's columns reuses
the Users struct with the newly-emitted flag false. -/
theorem c2_witness :
    buildQueryStep reqUsers (buildDataClasses reqUsers) qGetUsers =
      Except.ok (some (mkCompiledQuery reqUsers (buildDataClasses reqUsers) qGetUsers)) ∧
    (mkCompiledQuery reqUsers (buildDataClasses reqUsers) qGetUsers).ret.emit = false ∧
    ((mkCompiledQuery reqUsers (buildDataClasses reqUsers) qGetUsers).ret.struct).map Struct.name =
      some "Users" := by
  have hstep : buildQueryStep reqUsers (buildDataClasses reqUsers) qGetUsers =
      Except.ok (some (mkCompiledQuery reqUsers (buildDataClasses reqUsers) qGetUsers)) := rfl
  have h := c2_reuse_matching_struct reqUsers (buildDataClasses reqUsers) qGetUsers
    (mkCompiledQuery reqUsers (buildDataClasses reqUsers) qGetUsers) hstep (by decide)
    ⟨(buildDataClasses reqUsers).head (by decide), by decide, by decide⟩
  exact ⟨hstep, h.1, by decide⟩

/-- C3 counterexample: a CopyFrom query whose name is empty is skipped by
the name filter before the CopyFrom check, so compilation succeeds even
though the input contains a CopyFrom query: the claim as stated fails. -/
theorem c3_counterexample :
    (reqC3cx.queries.map PQuery.cmd).contains cmdCopyFrom = true ∧
    buildQueries reqC3cx (buildDataClasses reqC3cx) = Except.ok [] ∧
    (Generate reqC3cx ktOrder1).isOk = true := by
  exact ⟨by decide, rfl, rfl⟩

/-- C3 amended: if any query with a non-empty name and a non-empty command
kind has the CopyFrom command kind, query building returns the descriptive
CopyFrom error and Generate returns that error with no response. -/
theorem c3_copyfrom_aborts (req : CodeGenRequest) (structs : List Struct) (order : List String)
    (q : PQuery) (hq : q ∈ req.queries) (hname : q.name ≠ "") (hcmd : q.cmd ≠ "")
    (hcopy : q.cmd = cmdCopyFrom) :
    buildQueries req structs = Except.error "Support for CopyFrom in Kotlin is not implemented" ∧
    Generate req order = Except.error "Support for CopyFrom in Kotlin is not implemented" := by
  have haux := buildQueriesAux_error_of_mem req structs req.queries q hq hname hcmd hcopy
  have haux2 := buildQueriesAux_error_of_mem req (buildDataClasses req) req.queries q hq
    hname hcmd hcopy
  constructor
  · unfold buildQueries
    rw [haux]
  · unfold Generate generateOutput buildQueries
    rw [haux2]

/-- C3 witness: a named CopyFrom query aborts the whole run with the
descriptive error. -/
theorem c3_witness :
    buildQueries reqC3w (buildDataClasses reqC3w) =
      Except.error "Support for CopyFrom in Kotlin is not implemented" ∧
    Generate reqC3w ktOrder1 =
      Except.error "Support for CopyFrom in Kotlin is not implemented" :=
  c3_copyfrom_aborts reqC3w (buildDataClasses reqC3w) ktOrder1 qCopyNamed
    (by decide) (by decide) (by decide) rfl

/-- C4: the return descriptor is determined by the result-column count:
zero columns leave the empty descriptor, one column yields a bare scalar
with no struct, two or more reuse the first matching struct (not newly
emitted) or, when none matches, synthesize a ClassName-Row struct marked
newly emitted. -/
theorem c4_return_trichotomy (req : CodeGenRequest) (structs : List Struct) (q : PQuery)
    (gq : Query) (hstep : buildQueryStep req structs q = Except.ok (some gq)) :
    (q.columns = [] → gq.ret = emptyQueryValue) ∧
    (∀ c, q.columns = [c] →
      gq.ret.struct = none ∧ gq.ret.typ = makeType req c ∧ gq.ret.emit = false) ∧
    (2 ≤ q.columns.length →
      gq.ret.emit = (structs.find? (fun s => structMatches req s q.columns)).isNone ∧
      gq.ret.struct = some ((structs.find? (fun s => structMatches req s q.columns)).getD
        (ktColumnsToStruct req (stringsTitle q.name ++ "Row")
          (q.columns.enum.map (fun ic => ⟨ic.1, ic.2⟩)) ktColumnName)) ∧
      (structs.find? (fun s => structMatches req s q.columns) = none →
        gq.ret.emit = true ∧
        ∀ st, gq.ret.struct = some st → st.name = stringsTitle q.name ++ "Row")) := by
  obtain ⟨-, -, -, hgq⟩ := buildQueryStep_ok_some hstep
  subst hgq
  have hret : (mkCompiledQuery req structs q).ret =
      retValue req structs (stringsTitle q.name) q.columns := rfl
  refine ⟨?_, ?_, ?_⟩
  · intro hq
    rw [hret, hq]
    simp [retValue]
  · intro c hq
    rw [hret, hq]
    refine ⟨?_, ?_, ?_⟩ <;> simp [retValue, emptyQueryValue]
  · intro hlen
    rw [hret]
    cases hq : q.columns with
    | nil =>
      rw [hq] at hlen
      simp at hlen
    | cons c1 tail =>
      cases htail : tail with
      | nil =>
        rw [hq, htail] at hlen
        simp at hlen
      | cons c2 rest =>
        subst htail
        cases hf : structs.find? (fun s => structMatches req s (c1 :: c2 :: rest)) with
        | some s =>
          refine ⟨?_, ?_, ?_⟩
          · simp [retValue, hf, emptyQueryValue]
          · simp [retValue, hf]
          · intro hnone
            exact absurd hnone (by simp)
        | none =>
          refine ⟨?_, ?_, ?_⟩
          · simp [retValue, hf, emptyQueryValue]
          · simp [retValue, hf]
          · intro _
            refine ⟨by simp [retValue, hf, emptyQueryValue], ?_⟩
            intro st hst
            simp only [retValue, hf] at hst
            have hst2 := Option.some.inj hst
            rw [← hst2]
            rfl

/-- C4 witness: the three column-count cases at concrete queries against
the users catalog. -/
theorem c4_witness :
    (mkCompiledQuery reqUsers (buildDataClasses reqUsers) qNoCol).ret = emptyQueryValue ∧
    (mkCompiledQuery reqUsers (buildDataClasses reqUsers) qOneCol).ret.struct = none ∧
    (mkCompiledQuery reqUsers (buildDataClasses reqUsers) qOneCol).ret.typ =
      makeType reqUsers colEmail ∧
    (mkCompiledQuery reqUsers (buildDataClasses reqUsers) qTwoColNew).ret.emit = true ∧
    ((mkCompiledQuery reqUsers (buildDataClasses reqUsers) qTwoColNew).ret.struct).map
      Struct.name = some "GetPairRow" := by
  have h0 := c4_return_trichotomy reqUsers (buildDataClasses reqUsers) qNoCol
    (mkCompiledQuery reqUsers (buildDataClasses reqUsers) qNoCol) rfl
  have h1 := c4_return_trichotomy reqUsers (buildDataClasses reqUsers) qOneCol
    (mkCompiledQuery reqUsers (buildDataClasses reqUsers) qOneCol) rfl
  have h2 := c4_return_trichotomy reqUsers (buildDataClasses reqUsers) qTwoColNew
    (mkCompiledQuery reqUsers (buildDataClasses reqUsers) qTwoColNew) rfl
  have hone := h1.2.1 colEmail rfl
  refine ⟨h0.1 rfl, hone.1, hone.2.1, ?_, by decide⟩
  have htwo := h2.2.2 (by decide)
  rw [htwo.1]
  decide

/-- C5 counterexample: buildDataClasses applies no collision suffixing, so
the raw column names foo_bar and foo__bar, which derive the same member
identifier, yield a struct with two Fields both named fooBar. -/
theorem c5_counterexample :
    (buildDataClasses reqC5).map (fun s => s.fields.map Field.name) = [[ "fooBar", "fooBar"]] ∧
    ¬ ([ "fooBar", "fooBar"] : List String).Nodup := by
  exact ⟨by decide, by decide⟩

/-- C5 amended: in query-synthesized structs, repeats of the same raw
column name receive a numeric suffix, so (absent rename overrides) two
Fields created for columns with equal raw names never share an identifier;
distinct raw names that derive to the same identifier are not
disambiguated, and table-derived structs get no collision handling. -/
theorem c5_same_raw_names_distinct (req : CodeGenRequest) (name : String)
    (namer : Column → Nat → String) (cols : List GoColumn)
    (hren : req.settings.rename = [])
    (i j : Nat) (ci cj : GoColumn)
    (hi : cols[i]? = some ci) (hj : cols[j]? = some cj) (hij : i < j)
    (hfi : ∀ k ck, k < i → cols[k]? = some ck → ck.id ≠ ci.id)
    (hfj : ∀ k ck, k < j → cols[k]? = some ck → ck.id ≠ cj.id)
    (hraw : ci.column.name = cj.column.name) :
    (((ktColumnsToStruct req name cols namer).jdbcParamBindings)[i]?).map Field.name ≠
      (((ktColumnsToStruct req name cols namer).jdbcParamBindings)[j]?).map Field.name := by
  have h := ktCTSAux_sameRaw_distinct req namer hren cols [] [] i j ci cj hi hj hij
    (by simp [alookup]) (by simp [alookup]) hfi hfj hraw
  simpa [ktColumnsToStruct] using h

/-- C5 witness: two parameters with distinct numbers but the same raw
column name get the names a and a_2. -/
theorem c5_witness :
    (((ktColumnsToStruct emptyReq "W" colsC5 ktParamName).jdbcParamBindings)[0]?).map
        Field.name ≠
      (((ktColumnsToStruct emptyReq "W" colsC5 ktParamName).jdbcParamBindings)[1]?).map
        Field.name ∧
    (((ktColumnsToStruct emptyReq "W" colsC5 ktParamName).jdbcParamBindings)[0]?).map
        Field.name = some "a" ∧
    (((ktColumnsToStruct emptyReq "W" colsC5 ktParamName).jdbcParamBindings)[1]?).map
        Field.name = some "a_2" := by
  refine ⟨c5_same_raw_names_distinct emptyReq "W" ktParamName colsC5 rfl 0 1
    ⟨1, colParamA⟩ ⟨2, colParamA⟩ (by decide) (by decide) (by omega) ?_ ?_ rfl,
    by decide, by decide⟩
  · intro k ck hk
    omega
  · intro k ck hk hck
    have hk0 : k = 0 := by omega
    subst hk0
    rw [show colsC5[0]? = some (⟨1, colParamA⟩ : GoColumn) from rfl] at hck
    have h2 := Option.some.inj hck
    rw [← h2]
    decide

/-- C6: the final loop of Generate appends output files while ranging over
a Go map, whose iteration order is unspecified and randomized between
runs; two possible iteration orders of the same input produce the response
files in different orders, so the output file list is not run-
deterministic. -/
theorem c6_file_order_not_deterministic :
    (Generate emptyReq ktOrder1).map (fun r => r.files.map File.name) =
      Except.ok [ "Models.kt", "Queries.kt", "QueriesImpl.kt"] ∧
    (Generate emptyReq ktOrder2).map (fun r => r.files.map File.name) =
      Except.ok [ "QueriesImpl.kt", "Queries.kt", "Models.kt"] ∧
    ([ "Models.kt", "Queries.kt", "QueriesImpl.kt"] : List String) ≠
      [ "QueriesImpl.kt", "Queries.kt", "Models.kt"] := by
  exact ⟨rfl, rfl, by decide⟩

/-- C7: a derived enum constant identifier substitutes the separators,
deletes every remaining character outside the identifier class and
upper-cases, while the constant keeps the raw value string unmodified. -/
theorem c7_enum_constants (v : String) (req : CodeGenRequest) (e : Enum) (c : Constant)
    (he : e ∈ buildEnums req) (hc : c ∈ e.constants) :
    ktEnumValueName v = enumValueNameSpec v ∧
    c.name = ktEnumValueName c.value ∧
    ∃ schema ∈ req.catalog.schemas, ∃ en ∈ schema.enums,
      e.constants.map Constant.value = en.vals := by
  obtain ⟨schema, hschema, he2⟩ := mem_buildEnums he
  unfold buildEnumsOfSchema at he2
  by_cases hsys : schema.name = "pg_catalog" || schema.name = "information_schema"
  · rw [if_pos hsys] at he2
    simp at he2
  · rw [if_neg hsys] at he2
    obtain ⟨en, hen, heq⟩ := List.mem_map.mp he2
    have hconsts : e.constants =
        en.vals.map (fun w => (⟨ktEnumValueName w, e.name, w⟩ : Constant)) := by
      rw [← heq]
    refine ⟨ktEnumValueName_eq_spec v, ?_, schema, hschema, en, hen, ?_⟩
    · rw [hconsts] at hc
      obtain ⟨v2, hv2, hcv⟩ := List.mem_map.mp hc
      rw [← hcv]
    · rw [hconsts, List.map_map]
      have hfun : (Constant.value ∘ fun w => (⟨ktEnumValueName w, e.name, w⟩ : Constant)) = id :=
        rfl
      rw [hfun, List.map_id]

/-- C7 witness: the documented example value and a concrete catalog enum. -/
theorem c7_witness :
    ktEnumValueName "foo-bar:baz/qux" = "FOO_BAR_BAZ_QUX" ∧
    enumValueNameSpec "foo-bar:baz/qux" = "FOO_BAR_BAZ_QUX" ∧
    (⟨ "IN_ACTIVE", "UserStatus", "in-active"⟩ : Constant).name =
      ktEnumValueName "in-active" ∧
    (⟨ "UserStatus", "", [⟨ "ACTIVE", "UserStatus", "active"⟩,
        ⟨ "IN_ACTIVE", "UserStatus", "in-active"⟩]⟩ : Enum).constants.map Constant.value =
      [ "active", "in-active"] := by
  have h := c7_enum_constants "foo-bar:baz/qux" reqEnum
    ⟨ "UserStatus", "", [⟨ "ACTIVE", "UserStatus", "active"⟩,
      ⟨ "IN_ACTIVE", "UserStatus", "in-active"⟩]⟩
    ⟨ "IN_ACTIVE", "UserStatus", "in-active"⟩ (by decide) (by decide)
  refine ⟨by decide, h.1.symm.trans (by decide), h.2.1, by decide⟩

/-- C8: placeholder rewriting is engine-conditional pure text
substitution: every non-postgresql engine leaves every SQL string
unchanged, and for postgresql the output of every SQL string satisfies the
claim's rewriting relation PHRewrites — every numbered-placeholder token
(a dollar sign at a token boundary followed by digits ending at a word
boundary) is replaced by an unnumbered question-mark token and every other
position is kept, including occurrences inside string literals, as the
concrete literal-containing example also shows. -/
theorem c8_placeholder_rewrite (s engine : String) (h : engine ≠ "postgresql") :
    jdbcSQL s engine = s ∧
    (∀ t : String, PHRewrites none t.data ((jdbcSQL t "postgresql").data)) ∧
    jdbcSQL "SELECT name FROM users WHERE name = '$1' AND id = $2" "postgresql" =
      "SELECT name FROM users WHERE name = '?' AND id = ?" ∧
    jdbcSQL "INSERT INTO t VALUES ($1, $2, $3)" "postgresql" =
      "INSERT INTO t VALUES (?, ?, ?)" := by
  refine ⟨?_, ?_, rfl, rfl⟩
  · unfold jdbcSQL
    rw [if_neg h]
  · intro t
    show PHRewrites none t.data (replacePHAux (t.data.length + 1) t.data none)
    exact replacePHAux_rewrites (t.data.length + 1) t.data none (by omega)

/-- C8 witness: a non-postgresql engine leaves numbered placeholders in
place, and a concrete postgresql rewrite satisfies the token-rewrite
relation. -/
theorem c8_witness :
    jdbcSQL "SELECT $1" "mysql" = "SELECT $1" ∧
    PHRewrites none ( "id = $1".data) ((jdbcSQL "id = $1" "postgresql").data) ∧
    jdbcSQL "SELECT name FROM users WHERE name = '$1' AND id = $2" "postgresql" =
      "SELECT name FROM users WHERE name = '?' AND id = ?" :=
  ⟨(c8_placeholder_rewrite "SELECT $1" "mysql" (by decide)).1,
    (c8_placeholder_rewrite "SELECT $1" "mysql" (by decide)).2.1 "id = $1",
    (c8_placeholder_rewrite "SELECT $1" "mysql" (by decide)).2.2.1⟩

/-- C9: type resolution is total by construction and never fails; for
every request whose engine has no mapping table every column resolves to
the generic non-enum Any fallback; for every request, any two columns
agreeing on raw type, nullability and arrayness resolve to structurally
equal descriptors (regardless of engine); and under postgresql or mysql a
raw type unknown to both the engine's mapping table and the catalog enums
also falls back to the non-enum Any. -/
theorem c9_type_resolution :
    (∀ (req : CodeGenRequest) (c : Column),
      req.settings.engine ≠ "mysql" → req.settings.engine ≠ "postgresql" →
      makeType req c =
        ⟨ "Any", false, c.isArray, !c.notNull, sdkDataType c.typ, req.settings.engine⟩) ∧
    (∀ (req : CodeGenRequest) (c1 c2 : Column),
      c1.typ = c2.typ → c1.notNull = c2.notNull → c1.isArray = c2.isArray →
      makeType req c1 = makeType req c2) ∧
    (∀ (r : CodeGenRequest) (col : Column), r.settings.engine = "postgresql" →
      pgTypeLookup (sdkDataType col.typ) = none → findEnumName r col.typ = none →
      makeType r col =
        ⟨ "Any", false, col.isArray, !col.notNull, sdkDataType col.typ, "postgresql"⟩) ∧
    (∀ (r : CodeGenRequest) (col : Column), r.settings.engine = "mysql" →
      mysqlTypeLookup (sdkDataType col.typ) = none → findEnumName r col.typ = none →
      makeType r col =
        ⟨ "Any", false, col.isArray, !col.notNull, sdkDataType col.typ, "mysql"⟩) := by
  refine ⟨?_, ?_, ?_, ?_⟩
  · intro req c h1 h2
    simp [makeType, ktInnerType, h1, h2]
  · intro req c1 c2 ht hn ha
    simp only [makeType, ktInnerType, ht, hn, ha]
  · intro r col hpg hlk hen
    simp [makeType, ktInnerType, hpg, postgresTypeOf, hlk, hen]
  · intro r col hm hlk hen
    simp [makeType, ktInnerType, hm, mysqlTypeOf, hlk, hen]

/-- C9 witness: an engine with no mapping table resolves to Any, two
different postgresql columns with equal raw type, nullability and
arrayness resolve equally, and unknown postgresql and mysql types fall
back to Any. -/
theorem c9_witness :
    makeType sqliteReq colBlob =
      ⟨ "Any", false, false, false, "blob", "sqlite"⟩ ∧
    makeType reqUsers colBlob = makeType reqUsers colBlob2 ∧
    makeType reqUsers colUnknown =
      ⟨ "Any", false, false, false, "sometype", "postgresql"⟩ ∧
    makeType mysqlReq colUnknown =
      ⟨ "Any", false, false, false, "sometype", "mysql"⟩ := by
  have h := c9_type_resolution
  exact ⟨h.1 sqliteReq colBlob (by decide) (by decide),
    h.2.1 reqUsers colBlob colBlob2 rfl rfl rfl,
    h.2.2.1 reqUsers colUnknown rfl (by decide) (by decide),
    h.2.2.2 mysqlReq colUnknown rfl (by decide) (by decide)⟩

/-- C10: QueryValue.Type panics exactly when the scalar type is the zero
value and the struct reference is nil, and this cannot happen for the
return descriptor of a compiled query with at least one result column,
since buildQueries then sets a scalar type or a struct. -/
theorem c10_typeName_panic_iff (v : QueryValue) (req : CodeGenRequest) (structs : List Struct)
    (q : PQuery) (gq : Query) (hstep : buildQueryStep req structs q = Except.ok (some gq))
    (hne : q.columns ≠ []) :
    (QueryValue.typeName v = none ↔ v.typ = zeroKtType ∧ v.struct = none) ∧
    (gq.ret.typeName).isSome = true := by
  constructor
  · unfold QueryValue.typeName
    by_cases hz : v.typ = zeroKtType
    · simp only [hz, ne_eq, not_true_eq_false, if_false, true_and]
      cases hs : v.struct with
      | none => simp
      | some s => simp
    · simp [hz]
  · obtain ⟨-, -, -, hgq⟩ := buildQueryStep_ok_some hstep
    subst hgq
    have hret : (mkCompiledQuery req structs q).ret =
        retValue req structs (stringsTitle q.name) q.columns := rfl
    rw [hret]
    cases hq : q.columns with
    | nil => exact absurd hq hne
    | cons c1 tail =>
      cases tail with
      | nil =>
        simp only [retValue]
        unfold QueryValue.typeName
        rw [if_pos]
        · simp
        · show makeType req c1 ≠ zeroKtType
          exact makeType_ne_zero req c1
      | cons c2 rest =>
        simp only [retValue]
        cases hf : structs.find? (fun s => structMatches req s (c1 :: c2 :: rest)) with
        | some s =>
          unfold QueryValue.typeName
          simp [emptyQueryValue]
        | none =>
          unfold QueryValue.typeName
          simp [emptyQueryValue]

/-- C10 witness: the empty descriptor panics; a one-column query's return
descriptor does not. -/
theorem c10_witness :
    QueryValue.typeName emptyQueryValue = none ∧
    ((mkCompiledQuery reqUsers (buildDataClasses reqUsers) qOneCol).ret.typeName).isSome =
      true := by
  have h := c10_typeName_panic_iff emptyQueryValue reqUsers (buildDataClasses reqUsers)
    qOneCol (mkCompiledQuery reqUsers (buildDataClasses reqUsers) qOneCol) rfl (by decide)
  exact ⟨h.1.mpr ⟨rfl, rfl⟩, h.2⟩

end KtGen

